import Mathlib

set_option maxRecDepth 40000

/- The arithmetic on `ℚ` must evaluate inside `decide`/`rfl` proofs about
concrete documents; restore the default reducibility of the four operations
Batteries marks irreducible. -/
attribute [local semireducible] Rat.mul Rat.inv Rat.add Rat.sub

/-!
Formal verification of the substitution engine of `update_prices.py`
(stockcheese/growth-portfolio).

Embedding conventions:
* Documents and all display strings are lists of characters (`List Char`).
* Numeric raw values are exact rationals (`ℚ`); Python's float `f"{x:.Nf}"`
  formatting is modelled as exact decimal rounding with ties to even, which
  agrees with the source on every value the claims mention.
* The regular expressions the source builds are compiled by hand into
  deterministic scanners.  Each pattern used by the source is of a shape
  (literal pieces, `\s+`, `[^>]*`, `[^<]*`, `[\d.]+`, `[rga]`, `.+$`) whose
  backtracking behaviour is deterministic; the scanners implement exactly
  that behaviour.  Entity and field names are interpolated into the patterns
  verbatim by the source, so the model treats them as literal text (the
  configured tickers contain no regex metacharacters).
* `re.sub` is modelled by a fuel-indexed left-to-right scan (`reSubF`); the
  fuel `s.length` always suffices because every match consumes at least one
  character.  `re.findall` counting is `reCountF`.
* The source's `update_html` logs a changed-count and a skipped-count and
  returns the new document; the model returns all three in `EngineState`.
* Wall-clock readings (`datetime.now().strftime(...)`) are passed in as the
  two already-formatted strings `now` and `dateLabel`.
-/

/-! ## Decimal rendering of rationals (model of Python float formatting) -/

/-- One decimal digit as a character (inputs are always below ten). -/
def digitChar : Nat → Char
  | 0 => '0' | 1 => '1' | 2 => '2' | 3 => '3' | 4 => '4'
  | 5 => '5' | 6 => '6' | 7 => '7' | 8 => '8' | _ => '9'

/-- Base-ten digits, least significant first (fuelled structural recursion so
that concrete documents evaluate inside kernel-checked proofs; the fuel `n`
always suffices since the value shrinks tenfold per digit). -/
def natDigitsAux : Nat → Nat → List Nat
  | 0, _ => []
  | _ + 1, 0 => []
  | f + 1, n + 1 => (n + 1) % 10 :: natDigitsAux f ((n + 1) / 10)

def natDigitsLE (n : Nat) : List Nat := natDigitsAux n n

/-- Decimal rendering of a natural number. -/
def natChars (n : Nat) : List Char :=
  if n = 0 then ['0'] else ((natDigitsLE n).map digitChar).reverse

/-- Decimal rendering left-padded with zeros to width `w`. -/
def natCharsPad (w n : Nat) : List Char :=
  List.replicate (w - (natChars n).length) '0' ++ natChars n

/-- Helper for thousands grouping: walk the little-endian digits, inserting a
comma before every digit whose index is a positive multiple of three (the
output is still little-endian and is reversed by the caller). -/
def groupLE : Nat → List Nat → List Char
  | _, [] => []
  | i, d :: ds =>
    (if i ≠ 0 ∧ i % 3 = 0 then [',', digitChar d] else [digitChar d]) ++ groupLE (i + 1) ds

/-- Decimal rendering with thousands separators (Python `{:,}` grouping). -/
def natCharsGrouped (n : Nat) : List Char :=
  if n = 0 then ['0'] else (groupLE 0 (natDigitsLE n)).reverse

/-- Floor of a rational as an integer. -/
def ratFloor (q : ℚ) : ℤ := Int.fdiv q.num q.den

/-- Round to the nearest integer, ties to even (the rounding used by Python's
fixed-point float formatting). -/
def roundHE (q : ℚ) : ℤ :=
  let f := ratFloor q
  let r := q - (f : ℚ)
  if 1/2 < r then f + 1
  else if r < 1/2 then f
  else if f % 2 = 0 then f else f + 1

/-- Model of Python `f"{q:.df}"`: sign, then the rounded magnitude with `d`
digits after the point (no digit grouping). -/
def fixedChars (q : ℚ) (d : Nat) : List Char :=
  let m := (roundHE (|q| * 10 ^ d)).toNat
  (if q < 0 then ['-'] else []) ++ natChars (m / 10 ^ d) ++
    (if d = 0 then [] else '.' :: natCharsPad d (m % 10 ^ d))

/-- Model of Python `f"{q:,.df}"`: as `fixedChars` but with the integer part
grouped by thousands. -/
def fixedCharsGrouped (q : ℚ) (d : Nat) : List Char :=
  let m := (roundHE (|q| * 10 ^ d)).toNat
  (if q < 0 then ['-'] else []) ++ natCharsGrouped (m / 10 ^ d) ++
    (if d = 0 then [] else '.' :: natCharsPad d (m % 10 ^ d))

/-! ## `human_readable` and `format_value` (ValueFormatter) -/

/-- `human_readable` from the source: scale to T/B/M/K by the magnitude of the
absolute value, with 2 decimals for T/B, 1 for M/K, none below a thousand. -/
def human_readable (n : ℚ) : List Char :=
  let a := |n|
  if 10 ^ 12 ≤ a then fixedChars (n / 10 ^ 12) 2 ++ ['T']
  else if 10 ^ 9 ≤ a then fixedChars (n / 10 ^ 9) 2 ++ ['B']
  else if 10 ^ 6 ≤ a then fixedChars (n / 10 ^ 6) 1 ++ ['M']
  else if 10 ^ 3 ≤ a then fixedChars (n / 10 ^ 3) 1 ++ ['K']
  else fixedChars n 0

/-- `AUD_TICKERS` from the source. -/
def AUD_TICKERS : List String := ["LYC_AX"]

/-- The currency marker: `A$` for AUD-flagged tickers, else `$`. -/
def curPfx (ticker_id : String) : List Char :=
  if ticker_id ∈ AUD_TICKERS then ['A', '$'] else ['$']

/-- Fallback rendering for `str(value)` in `format_value`'s final branch.
That branch is unreachable for the six field names `update_html` passes;
it is modelled as a plain sign/numerator/denominator rendering. -/
def ratChars (q : ℚ) : List Char :=
  (if q < 0 then ['-'] else []) ++ natChars q.num.natAbs ++
    (if q.den = 1 then [] else '/' :: natChars q.den)

/-- `format_value` from the source. -/
def format_value (value : ℚ) (field : String) (ticker_id : String) : List Char :=
  let p := curPfx ticker_id
  if field = "price" then p ++ fixedCharsGrouped value 2
  else if field = "mktcap" then p ++ human_readable value
  else if field = "revenue" then
    (if value = 0 then p ++ ['0'] else p ++ human_readable value)
  else if field = "net_income" then
    (if value < 0 then '-' :: (p ++ human_readable |value|) else p ++ human_readable value)
  else if field = "target_price" then p ++ fixedCharsGrouped value 2
  else if field = "pe_forward" then fixedChars value 1 ++ ['x']
  else ratChars value

/-! ## RawRecord and the data mapping -/

/-- Per-entity record of raw values; `none` is an absent value.  Mirrors the
per-ticker dict built by `fetch_all_data`. -/
structure Record where
  price : Option ℚ
  mktcap : Option ℚ
  revenue : Option ℚ
  net_income : Option ℚ
  wk52_high : Option ℚ
  wk52_low : Option ℚ
  target_price : Option ℚ
  pe_forward : Option ℚ
deriving DecidableEq, Repr

/-- The all-absent record (Python's empty dict default). -/
def emptyRecord : Record := ⟨none, none, none, none, none, none, none, none⟩

/-- Field lookup by the source's field-name strings (`dict.get`). -/
def Record.get (r : Record) (field : String) : Option ℚ :=
  if field = "price" then r.price
  else if field = "mktcap" then r.mktcap
  else if field = "revenue" then r.revenue
  else if field = "net_income" then r.net_income
  else if field = "52wk_high" then r.wk52_high
  else if field = "52wk_low" then r.wk52_low
  else if field = "target_price" then r.target_price
  else if field = "pe_forward" then r.pe_forward
  else none

/-- The data mapping: insertion-ordered ticker/record pairs (a Python dict
preserves insertion order). -/
abbrev DataMap := List (String × Record)

/-- `data.get("LYSCF", {}).get("price")` from `range_replacer`. -/
def lyscfPriceOf (data : DataMap) : Option ℚ :=
  (((data.find? (fun p => p.1 == "LYSCF")).map (fun p => p.2)).getD emptyRecord).price

/-! ## Hand-compiled scanners for the source's regular expressions

Every pattern the source builds has the deterministic shapes described in the
header. A scanner either fails or returns the replacement text together with
the number of characters the match consumed. -/

/-- Consume an exact literal, returning the remainder. -/
def stripLit : List Char → List Char → Option (List Char)
  | [], s => some s
  | _, [] => none
  | l :: ls, c :: cs => if c = l then stripLit ls cs else none

/-- Python `\s` on the ASCII range (the documents contain no exotic spaces). -/
def isPySpace (c : Char) : Bool :=
  c = ' ' || c = '\t' || c = '\n' || c = '\r' || c = '\x0b' || c = '\x0c'

/-- The open-tag-and-text shape shared by the locator patterns:
`LIT1 \s+ LIT2 [^>]*> [^<]* <`, anchored at the head of `s`.  Returns the
text of capture group 1 (everything up to and including the `>`) and the
`[^<]*` text run.  The trailing `<` must be present (capture group 2). -/
def tagShape (lit1 lit2 : List Char) (s : List Char) : Option (List Char × List Char) :=
  match stripLit lit1 s with
  | none => none
  | some s1 =>
    let sp := s1.takeWhile isPySpace
    if sp.isEmpty then none
    else
      match stripLit lit2 (s1.drop sp.length) with
      | none => none
      | some s2 =>
        let attrs := s2.takeWhile (fun c => c != '>')
        match s2.drop attrs.length with
        | '>' :: s3 =>
          let content := s3.takeWhile (fun c => c != '<')
          match s3.drop content.length with
          | '<' :: _ => some (lit1 ++ sp ++ lit2 ++ attrs ++ ['>'], content)
          | _ => none
        | _ => none

/-- The single-literal variant `LIT [^>]*> [^<]* <` used by the timestamp and
date-label patterns. -/
def tagShape1 (lit : List Char) (s : List Char) : Option (List Char × List Char) :=
  match stripLit lit s with
  | none => none
  | some s2 =>
    let attrs := s2.takeWhile (fun c => c != '>')
    match s2.drop attrs.length with
    | '>' :: s3 =>
      let content := s3.takeWhile (fun c => c != '<')
      match s3.drop content.length with
      | '<' :: _ => some (lit ++ attrs ++ ['>'], content)
      | _ => none
    | _ => none

/-- Scanner for the primitive-field patterns
`(LIT1 \s+ LIT2 [^>]*>)[^<]*(<)` with replacement `\g<1>REPL\2`. -/
def tryTagged (lit1 lit2 repl : List Char) (s : List Char) : Option (List Char × Nat) :=
  match tagShape lit1 lit2 s with
  | none => none
  | some (g1, content) => some (g1 ++ repl ++ ['<'], g1.length + content.length + 1)

/-- Scanner for `(LIT[^>]*>)[^<]*(<)` with replacement `\1REPL\2`. -/
def tryTagged1 (lit repl : List Char) (s : List Char) : Option (List Char × Nat) :=
  match tagShape1 lit s with
  | none => none
  | some (g1, content) => some (g1 ++ repl ++ ['<'], g1.length + content.length + 1)

/-- `re.sub`, fuelled: scan left to right, replacing non-overlapping matches.
Every step consumes at least one character, so fuel `s.length` is exact. -/
def reSubF (try' : List Char → Option (List Char × Nat)) : Nat → List Char → List Char
  | 0, s => s
  | _ + 1, [] => []
  | f + 1, c :: cs =>
    match try' (c :: cs) with
    | some (out, n) => out ++ reSubF try' f (List.drop (n - 1) cs)
    | none => c :: reSubF try' f cs

def reSub (try' : List Char → Option (List Char × Nat)) (s : List Char) : List Char :=
  reSubF try' s.length s

/-- `len(re.findall ...)`: the number of non-overlapping matches. -/
def reCountF (try' : List Char → Option (List Char × Nat)) : Nat → List Char → Nat
  | 0, _ => 0
  | _ + 1, [] => 0
  | f + 1, c :: cs =>
    match try' (c :: cs) with
    | some (_, n) => 1 + reCountF try' f (List.drop (n - 1) cs)
    | none => reCountF try' f cs

def reCount (try' : List Char → Option (List Char × Nat)) (s : List Char) : Nat :=
  reCountF try' s.length s

/-- `re.sub` with a replacement callback that needs the match position in the
scanned string (used by the 52-week-range pass, whose callback indexes into a
document by match positions). -/
def reSubPosF (try' : Nat → List Char → Option (List Char × Nat)) :
    Nat → Nat → List Char → List Char
  | 0, _, s => s
  | _ + 1, _, [] => []
  | f + 1, pos, c :: cs =>
    match try' pos (c :: cs) with
    | some (out, n) => out ++ reSubPosF try' f (pos + n) (List.drop (n - 1) cs)
    | none => c :: reSubPosF try' f (pos + 1) cs

def reSubPos (try' : Nat → List Char → Option (List Char × Nat)) (s : List Char) : List Char :=
  reSubPosF try' s.length 0 s

/-! ## The 52-week-range replacement callback -/

/-- The anchored decoration probe `^US OTC: ~\$[\d.]+ · ` of `range_replacer`;
returns the whole matched text.  (`[\d.]+` is a maximal digits-and-dots run
followed by the literal `" · "`; backtracking cannot produce any other
match.) -/
def otcParse (old : List Char) : Option (List Char) :=
  match stripLit "US OTC: ~$".toList old with
  | none => none
  | some s1 =>
    let digs := s1.takeWhile (fun c => c.isDigit || c == '.')
    if digs.isEmpty then none
    else
      match stripLit " · ".toList (s1.drop digs.length) with
      | none => none
      | some _ => some ("US OTC: ~$".toList ++ digs ++ " · ".toList)

/-- One anchored attempt of `52wk: [^·<]+(· .+)$`: literal, then a maximal
nonempty run without `·`/`<`, then `· `, then `.+` reaching the end of the
string (a single trailing newline is allowed by `$`, and is not captured). -/
def trySfxAt (s : List Char) : Option (List Char) :=
  match stripLit "52wk: ".toList s with
  | none => none
  | some s1 =>
    let run := s1.takeWhile (fun c => c != '·' && c != '<')
    if run.isEmpty then none
    else
      match s1.drop run.length with
      | '·' :: ' ' :: rest =>
        let p := rest.takeWhile (fun c => c != '\n')
        if p.isEmpty then none
        else
          match rest.drop p.length with
          | [] => some ('·' :: ' ' :: p)
          | ['\n'] => some ('·' :: ' ' :: p)
          | _ => none
      | _ => none

/-- `re.search(r"52wk: [^·<]+(· .+)$", old)`: first position (left to right)
where the anchored attempt succeeds; returns capture group 1. -/
def sfxSearch : List Char → Option (List Char)
  | [] => none
  | c :: cs =>
    match trySfxAt (c :: cs) with
    | some g => some g
    | none => sfxSearch cs

/-- The text `range_replacer` writes in place of an old text run:
regenerated or copied OTC marker, the fresh range, the preserved suffix. -/
def range_replacer (lyscf : Option ℚ) (newRange old_text : List Char) : List Char :=
  let otc : List Char :=
    match otcParse old_text with
    | none => []
    | some g0 =>
      match lyscf with
      | some p => "US OTC: ~$".toList ++ fixedChars p 2 ++ " · ".toList
      | none => g0
  let sfx : List Char :=
    match sfxSearch old_text with
    | none => []
    | some g1 => ' ' :: g1
  otc ++ newRange ++ sfx

/-- Scanner for the range patterns.  The match condition is the usual tag
shape; the replacement reads the old text out of `stale` at the match
position, exactly like the source's
`old_text = html[m.start(1) + len(m.group(1)) : m.start(2)]`
(which indexes the enclosing `html` variable even when the scan runs over a
different string). -/
def tryRange (lit1 lit2 stale : List Char) (lyscf : Option ℚ) (newRange : List Char)
    (pos : Nat) (s : List Char) : Option (List Char × Nat) :=
  match tagShape lit1 lit2 s with
  | none => none
  | some (g1, content) =>
    let old_text := (stale.drop (pos + g1.length)).take content.length
    some (g1 ++ range_replacer lyscf newRange old_text ++ ['<'],
      g1.length + content.length + 1)

/-! ## The class-toggle scanners -/

/-- Scanner for `(LIT1)[rga](LIT2)` with replacement `\g<1>NC\2`
(the `class="val "`-first and `class="mono "`-first color patterns). -/
def tryClassA (lit1 lit2 : List Char) (nc : Char) (s : List Char) :
    Option (List Char × Nat) :=
  match stripLit lit1 s with
  | none => none
  | some [] => none
  | some (x :: s1) =>
    if x == 'r' || x == 'g' || x == 'a' then
      match stripLit lit2 s1 with
      | some _ => some (lit1 ++ nc :: lit2, lit1.length + 1 + lit2.length)
      | none => none
    else none

/-- Find the last offset in `R` at which `class="val X"` (`X ∈ rga`) begins;
greedy `[^>]*` commits to the last occurrence inside the non-`>` run. -/
def lastClassVal (valLit : List Char) : List Char → Option (Nat × Char)
  | [] => none
  | c :: cs =>
    match lastClassVal valLit cs with
    | some (k, x) => some (k + 1, x)
    | none =>
      match stripLit valLit (c :: cs) with
      | some (x :: q :: _) =>
        if (x == 'r' || x == 'g' || x == 'a') && q == '"' then some (0, x) else none
      | _ => none

/-- Scanner for `(LIT1[^>]*class="val )[rga](")` with replacement `\g<1>NC\2`.
All characters of the match after `LIT1` are non-`>`, so the greedy `[^>]*`
selects the last occurrence of `class="val X"` in the maximal non-`>` run. -/
def tryClassB (lit1 valLit : List Char) (nc : Char) (s : List Char) :
    Option (List Char × Nat) :=
  match stripLit lit1 s with
  | none => none
  | some s1 =>
    let R := s1.takeWhile (fun c => c != '>')
    match lastClassVal valLit R with
    | none => none
    | some (k, _) =>
      some (lit1 ++ R.take k ++ valLit ++ nc :: ['"'],
        lit1.length + k + valLit.length + 2)

/-! ## The substitution engine -/

/-- Marker-attribute literals. -/
def dtLit (t : String) : List Char := "data-ticker=\"".toList ++ t.toList ++ ['"']

def dfLit (f : String) : List Char := "data-field=\"".toList ++ f.toList ++ ['"']

/-- The six primitive display fields, in the source's iteration order. -/
def simpleFieldsList : List String :=
  ["price", "mktcap", "revenue", "net_income", "target_price", "pe_forward"]

/-- The engine's running state: the document plus the two counters that
`update_html` accumulates and reports. -/
structure EngineState where
  html : List Char
  changes : Nat
  skipped : Nat
deriving DecidableEq, Repr

/-- One primitive field of one ticker: skip (counting) on an absent value,
else substitute both attribute orders and count matches if the text moved. -/
def doField (ticker_id : String) (r : Record) (st : EngineState) (field : String) :
    EngineState :=
  match r.get field with
  | none => ⟨st.html, st.changes, st.skipped + 1⟩
  | some v =>
    let fmt := format_value v field ticker_id
    let tF := tryTagged (dtLit ticker_id) (dfLit field) fmt
    let tR := tryTagged (dfLit field) (dtLit ticker_id) fmt
    let new2 := reSub tR (reSub tF st.html)
    if new2 = st.html then st
    else ⟨new2, st.changes + (reCount tF st.html + reCount tR st.html), st.skipped⟩

/-- The composite 52-week-range pass for one ticker.  Faithful to the source:
the reversed-order substitution scans the output of the forward one while its
callback still reads old text out of the ticker-loop's `html` variable. -/
def doRange (data : DataMap) (ticker_id : String) (r : Record) (st : EngineState) :
    EngineState :=
  match r.get "52wk_high", r.get "52wk_low" with
  | some high, some low =>
    let p := curPfx ticker_id
    let newRange := "52wk: ".toList ++ (p ++ fixedCharsGrouped low 2) ++
      " – ".toList ++ (p ++ fixedCharsGrouped high 2)
    let lp := lyscfPriceOf data
    let stale := st.html
    let tF := tryRange (dtLit ticker_id) (dfLit "52wk_range") stale lp newRange
    let tR := tryRange (dfLit "52wk_range") (dtLit ticker_id) stale lp newRange
    let new2 := reSubPos tR (reSubPos tF st.html)
    if new2 = st.html then st else ⟨new2, st.changes + 1, st.skipped⟩
  | _, _ => st

/-- The net-income class toggle for one ticker: three unconditional
substitutions (no change counting). -/
def doClass (ticker_id : String) (r : Record) (st : EngineState) : EngineState :=
  match r.get "net_income" with
  | none => st
  | some v =>
    let nc : Char := if v < 0 then 'r' else 'g'
    let tailLit : List Char := '"' :: ' ' :: (dtLit ticker_id ++ ' ' :: dfLit "net_income")
    let h1 := reSub (tryClassA "class=\"val ".toList tailLit nc) st.html
    let h2 := reSub (tryClassB (dtLit ticker_id ++ ' ' :: dfLit "net_income")
      "class=\"val ".toList nc) h1
    let h3 := reSub (tryClassA "class=\"mono ".toList tailLit nc) h2
    ⟨h3, st.changes, st.skipped⟩

/-- The whole per-ticker body of the loop in `update_html`. -/
def processTicker (data : DataMap) (st : EngineState) (entry : String × Record) :
    EngineState :=
  doClass entry.1 entry.2
    (doRange data entry.1 entry.2 (simpleFieldsList.foldl (doField entry.1 entry.2) st))

/-- `update_html` from the source.  `now` and `dateLabel` are the two
strftime strings of the current instant. -/
def update_html (html : List Char) (data : DataMap) (now dateLabel : List Char) :
    EngineState :=
  let st := data.foldl (processTicker data) ⟨html, 0, 0⟩
  let h1 := reSub (tryTagged1 "data-field=\"last-updated\"".toList
    ("Prices last updated: ".toList ++ now)) st.html
  let h2 := reSub (tryTagged1 "data-field=\"price_date\"".toList dateLabel) h1
  ⟨h2, st.changes, st.skipped⟩

/-! ## Scanning lemmas: localizing `re.sub` to a single match -/

theorem reSubF_nil (try' : List Char → Option (List Char × Nat)) (f : Nat) :
    reSubF try' f [] = [] := by
  cases f <;> rfl

theorem reSubF_id (try' : List Char → Option (List Char × Nat)) :
    ∀ (s : List Char) (f : Nat),
      (∀ i, i < s.length → try' (List.drop i s) = none) → reSubF try' f s = s := by
  intro s
  induction s with
  | nil => intro f _; exact reSubF_nil try' f
  | cons c cs ih =>
    intro f h
    cases f with
    | zero => rfl
    | succ f' =>
      have h0 : try' (c :: cs) = none := by simpa using h 0 (by simp)
      have ih' : reSubF try' f' cs = cs :=
        ih f' (fun i hi => by
          simpa [List.drop_succ_cons] using h (i + 1) (by simpa using Nat.succ_lt_succ hi))
      simp [reSubF, h0, ih']

theorem reSubF_skip (try' : List Char → Option (List Char × Nat)) :
    ∀ (a : List Char) (f : Nat) (b : List Char), a.length ≤ f →
      (∀ i, i < a.length → try' (List.drop i (a ++ b)) = none) →
      reSubF try' f (a ++ b) = a ++ reSubF try' (f - a.length) b := by
  intro a
  induction a with
  | nil => intro f b _ _; simp
  | cons x a' ih =>
    intro f b hf hnm
    cases f with
    | zero => simp at hf
    | succ f' =>
      have h0 : try' (x :: (a' ++ b)) = none := by simpa using hnm 0 (by simp)
      have hle : a'.length ≤ f' := by simp at hf; omega
      have hrec : reSubF try' f' (a' ++ b) = a' ++ reSubF try' (f' - a'.length) b :=
        ih f' b hle (fun i hi => by
          simpa [List.drop_succ_cons] using hnm (i + 1) (by simpa using Nat.succ_lt_succ hi))
      simp [reSubF, h0, hrec, Nat.succ_sub_succ]

theorem reSub_single (try' : List Char → Option (List Char × Nat))
    (P M B out : List Char) (n : Nat)
    (hM : try' (M ++ B) = some (out, n)) (hlen : M.length = n) (h1 : 1 ≤ n)
    (hP : ∀ i, i < P.length → try' (List.drop i (P ++ (M ++ B))) = none)
    (hB : ∀ i, i < B.length → try' (List.drop i B) = none) :
    reSub try' (P ++ (M ++ B)) = P ++ (out ++ B) := by
  unfold reSub
  have hfuel : P.length ≤ (P ++ (M ++ B)).length := by simp
  rw [reSubF_skip try' P _ (M ++ B) hfuel hP]
  have hf2 : (P ++ (M ++ B)).length - P.length = (M ++ B).length := by simp
  rw [hf2]
  refine congrArg (P ++ ·) ?_
  match hMB : M ++ B with
  | [] =>
    exfalso
    have hML : (M ++ B).length = 0 := by rw [hMB]; rfl
    rw [List.length_append] at hML
    omega
  | c :: cs =>
    rw [hMB] at hM
    have hdrop : List.drop (n - 1) cs = B := by
      have hd : List.drop n (M ++ B) = B := List.drop_left' hlen
      rw [hMB] at hd
      match n, h1 with
      | m + 1, _ => simpa [List.drop_succ_cons] using hd
    have hstep : reSubF try' ((c :: cs).length) (c :: cs)
        = out ++ reSubF try' cs.length (List.drop (n - 1) cs) := by
      simp [reSubF, hM]
    rw [hstep, hdrop]
    exact congrArg (out ++ ·) (reSubF_id try' B cs.length (fun i hi => hB i hi))

theorem reSubPosF_id (try' : Nat → List Char → Option (List Char × Nat)) :
    ∀ (s : List Char) (f p0 : Nat),
      (∀ i, i < s.length → try' (p0 + i) (List.drop i s) = none) →
      reSubPosF try' f p0 s = s := by
  intro s
  induction s with
  | nil => intro f p0 _; cases f <;> rfl
  | cons c cs ih =>
    intro f p0 h
    cases f with
    | zero => rfl
    | succ f' =>
      have h0 : try' p0 (c :: cs) = none := by simpa using h 0 (by simp)
      have ih' : reSubPosF try' f' (p0 + 1) cs = cs :=
        ih f' (p0 + 1) (fun i hi => by
          have := h (i + 1) (by simpa using Nat.succ_lt_succ hi)
          simpa [List.drop_succ_cons, Nat.add_assoc, Nat.add_comm 1 i] using this)
      simp [reSubPosF, h0, ih']

theorem reSubPosF_skip (try' : Nat → List Char → Option (List Char × Nat)) :
    ∀ (a : List Char) (f p0 : Nat) (b : List Char), a.length ≤ f →
      (∀ i, i < a.length → try' (p0 + i) (List.drop i (a ++ b)) = none) →
      reSubPosF try' f p0 (a ++ b) = a ++ reSubPosF try' (f - a.length) (p0 + a.length) b := by
  intro a
  induction a with
  | nil => intro f p0 b _ _; simp
  | cons x a' ih =>
    intro f p0 b hf hnm
    cases f with
    | zero => simp at hf
    | succ f' =>
      have h0 : try' p0 (x :: (a' ++ b)) = none := by simpa using hnm 0 (by simp)
      have hle : a'.length ≤ f' := by simp at hf; omega
      have hrec : reSubPosF try' f' (p0 + 1) (a' ++ b)
          = a' ++ reSubPosF try' (f' - a'.length) (p0 + 1 + a'.length) b :=
        ih f' (p0 + 1) b hle (fun i hi => by
          have := hnm (i + 1) (by simpa using Nat.succ_lt_succ hi)
          simpa [List.drop_succ_cons, Nat.add_assoc, Nat.add_comm 1 i] using this)
      have hpos : p0 + 1 + a'.length = p0 + (a'.length + 1) := by omega
      simp [reSubPosF, h0, hrec, Nat.succ_sub_succ, hpos]

theorem reSubPos_single (try' : Nat → List Char → Option (List Char × Nat))
    (P M B out : List Char) (n : Nat)
    (hM : try' P.length (M ++ B) = some (out, n)) (hlen : M.length = n) (h1 : 1 ≤ n)
    (hP : ∀ i, i < P.length → try' i (List.drop i (P ++ (M ++ B))) = none)
    (hB : ∀ i, i < B.length → try' (P.length + n + i) (List.drop i B) = none) :
    reSubPos try' (P ++ (M ++ B)) = P ++ (out ++ B) := by
  unfold reSubPos
  have hfuel : P.length ≤ (P ++ (M ++ B)).length := by simp
  rw [reSubPosF_skip try' P _ 0 (M ++ B) hfuel (fun i hi => by simpa using hP i hi)]
  have hf2 : (P ++ (M ++ B)).length - P.length = (M ++ B).length := by simp
  rw [hf2]
  refine congrArg (P ++ ·) ?_
  match hMB : M ++ B with
  | [] =>
    exfalso
    have hML : (M ++ B).length = 0 := by rw [hMB]; rfl
    rw [List.length_append] at hML
    omega
  | c :: cs =>
    rw [hMB] at hM
    have hM' : try' (0 + P.length) (c :: cs) = some (out, n) := by
      rw [Nat.zero_add]; exact hM
    have hdrop : List.drop (n - 1) cs = B := by
      have hd : List.drop n (M ++ B) = B := List.drop_left' hlen
      rw [hMB] at hd
      match n, h1 with
      | m + 1, _ => simpa [List.drop_succ_cons] using hd
    have hstep : reSubPosF try' ((c :: cs).length) (0 + P.length) (c :: cs)
        = out ++ reSubPosF try' cs.length (0 + P.length + n) (List.drop (n - 1) cs) := by
      simp [reSubPosF, hM]
    rw [hstep, hdrop]
    exact congrArg (out ++ ·)
      (reSubPosF_id try' B cs.length _ (fun i hi => by
        have := hB i hi
        have harith : 0 + P.length + n + i = P.length + n + i := by omega
        rw [harith]
        exact this))

/-! ## Computing the scanners on well-shaped element text -/

theorem stripLit_pre : ∀ (l s : List Char), stripLit l (l ++ s) = some s := by
  intro l
  induction l with
  | nil => intro s; simp [stripLit]
  | cons c cs ih => intro s; simp [stripLit, ih]

theorem takeWhile_all_stop (p : Char → Bool) :
    ∀ (a : List Char) (d : Char) (b : List Char),
      (∀ c ∈ a, p c = true) → p d = false →
      (a ++ d :: b).takeWhile p = a := by
  intro a
  induction a with
  | nil => intro d b _ hd; simp [List.takeWhile_cons, hd]
  | cons x a' ih =>
    intro d b ha hd
    have hx : p x = true := ha x (by simp)
    simp [List.takeWhile_cons, hx, ih d b (fun c hc => ha c (by simp [hc])) hd]

/-- The tag-shape scanner succeeds on exactly the element text the pattern
describes, returning capture group 1 and the text run. -/
theorem tagShape_eq (lit1 sp : List Char) (h2 : Char) (lit2t attrs content B : List Char)
    (hsp : ∀ c ∈ sp, isPySpace c = true) (hspn : sp ≠ [])
    (hh2 : isPySpace h2 = false)
    (hattrs : ∀ c ∈ attrs, (c != '>') = true)
    (hcontent : ∀ c ∈ content, (c != '<') = true) :
    tagShape lit1 (h2 :: lit2t)
        (lit1 ++ (sp ++ (h2 :: lit2t ++ (attrs ++ '>' :: (content ++ '<' :: B)))))
      = some (lit1 ++ sp ++ (h2 :: lit2t) ++ attrs ++ ['>'], content) := by
  have htw : (sp ++ (h2 :: lit2t ++ (attrs ++ '>' :: (content ++ '<' :: B)))).takeWhile isPySpace
      = sp := by
    rw [show (sp ++ (h2 :: lit2t ++ (attrs ++ '>' :: (content ++ '<' :: B))))
        = sp ++ h2 :: (lit2t ++ (attrs ++ '>' :: (content ++ '<' :: B))) by simp]
    exact takeWhile_all_stop isPySpace sp h2 _ hsp hh2
  have hne : sp.isEmpty = false := by
    cases sp with
    | nil => exact absurd rfl hspn
    | cons a b => rfl
  have hs2 : stripLit (h2 :: lit2t) (h2 :: lit2t ++ (attrs ++ '>' :: (content ++ '<' :: B)))
      = some (attrs ++ '>' :: (content ++ '<' :: B)) := by
    have := stripLit_pre (h2 :: lit2t) (attrs ++ '>' :: (content ++ '<' :: B))
    simpa using this
  have hta : (attrs ++ '>' :: (content ++ '<' :: B)).takeWhile (fun c => c != '>') = attrs :=
    takeWhile_all_stop _ attrs '>' _ hattrs (by decide)
  have htc : (content ++ '<' :: B).takeWhile (fun c => c != '<') = content :=
    takeWhile_all_stop _ content '<' _ hcontent (by decide)
  simp only [tagShape, stripLit_pre, htw, hne, Bool.false_eq_true, if_false,
    List.drop_left, hs2, hta, htc]

/-- Variant for the single-literal timestamp and date-label patterns. -/
theorem tagShape1_eq (lit attrs content B : List Char)
    (hattrs : ∀ c ∈ attrs, (c != '>') = true)
    (hcontent : ∀ c ∈ content, (c != '<') = true) :
    tagShape1 lit (lit ++ (attrs ++ '>' :: (content ++ '<' :: B)))
      = some (lit ++ attrs ++ ['>'], content) := by
  have hta : (attrs ++ '>' :: (content ++ '<' :: B)).takeWhile (fun c => c != '>') = attrs :=
    takeWhile_all_stop _ attrs '>' _ hattrs (by decide)
  have htc : (content ++ '<' :: B).takeWhile (fun c => c != '<') = content :=
    takeWhile_all_stop _ content '<' _ hcontent (by decide)
  simp only [tagShape1, stripLit_pre, hta, htc, List.drop_left]

/-! ## Decidable bulk no-match checks and the pass-identity lemmas -/

/-- No tag-shape match at any of the first `n` offsets of `s`. -/
def noTagBelowB (l1 l2 s : List Char) (n : Nat) : Bool :=
  (List.range n).all fun i => (tagShape l1 l2 (s.drop i)).isNone

def noTagB (l1 l2 s : List Char) : Bool := noTagBelowB l1 l2 s s.length

def noTag1BelowB (lit s : List Char) (n : Nat) : Bool :=
  (List.range n).all fun i => (tagShape1 lit (s.drop i)).isNone

def noTag1B (lit s : List Char) : Bool := noTag1BelowB lit s s.length

def noClassAB (l1 l2 s : List Char) : Bool :=
  (List.range s.length).all fun i => (tryClassA l1 l2 'g' (s.drop i)).isNone

def noClassBB (l1 vl s : List Char) : Bool :=
  (List.range s.length).all fun i => (tryClassB l1 vl 'g' (s.drop i)).isNone

theorem noTagBelowB_spec {l1 l2 s : List Char} {n : Nat} (h : noTagBelowB l1 l2 s n = true) :
    ∀ i, i < n → tagShape l1 l2 (s.drop i) = none := by
  intro i hi
  have := List.all_eq_true.mp h i (List.mem_range.mpr hi)
  simpa [Option.isNone_iff_eq_none] using this

theorem noTag1BelowB_spec {lit s : List Char} {n : Nat} (h : noTag1BelowB lit s n = true) :
    ∀ i, i < n → tagShape1 lit (s.drop i) = none := by
  intro i hi
  have := List.all_eq_true.mp h i (List.mem_range.mpr hi)
  simpa [Option.isNone_iff_eq_none] using this

theorem tryTagged_none {l1 l2 s : List Char} (repl : List Char)
    (h : tagShape l1 l2 s = none) : tryTagged l1 l2 repl s = none := by
  simp [tryTagged, h]

theorem tryTagged1_none {lit s : List Char} (repl : List Char)
    (h : tagShape1 lit s = none) : tryTagged1 lit repl s = none := by
  simp [tryTagged1, h]

theorem tryRange_none {l1 l2 s : List Char} (stale : List Char) (lp : Option ℚ)
    (nr : List Char) (q : Nat) (h : tagShape l1 l2 s = none) :
    tryRange l1 l2 stale lp nr q s = none := by
  simp [tryRange, h]

theorem tryClassA_none {l1 l2 s : List Char} (nc : Char)
    (h : tryClassA l1 l2 'g' s = none) : tryClassA l1 l2 nc s = none := by
  unfold tryClassA at h ⊢
  cases hs : stripLit l1 s with
  | none => rfl
  | some s0 =>
    rw [hs] at h
    cases s0 with
    | nil => rfl
    | cons x s1 =>
      by_cases hx : (x == 'r' || x == 'g' || x == 'a') = true
      · cases hs2 : stripLit l2 s1 with
        | none => simp [hx, hs2]
        | some w => simp [hx, hs2] at h
      · simp [hx]

theorem tryClassB_none {l1 vl s : List Char} (nc : Char)
    (h : tryClassB l1 vl 'g' s = none) : tryClassB l1 vl nc s = none := by
  unfold tryClassB at h ⊢
  cases hs : stripLit l1 s with
  | none => rfl
  | some s1 =>
    rw [hs] at h
    cases hl : lastClassVal vl (s1.takeWhile (fun c => c != '>')) with
    | none => simp [hl]
    | some kx =>
      obtain ⟨k, x⟩ := kx
      simp [hl] at h

theorem noClassAB_spec {l1 l2 s : List Char} (nc : Char) (h : noClassAB l1 l2 s = true) :
    ∀ i, i < s.length → tryClassA l1 l2 nc (s.drop i) = none := by
  intro i hi
  have := List.all_eq_true.mp h i (List.mem_range.mpr hi)
  exact tryClassA_none nc (by simpa [Option.isNone_iff_eq_none] using this)

theorem noClassBB_spec {l1 vl s : List Char} (nc : Char) (h : noClassBB l1 vl s = true) :
    ∀ i, i < s.length → tryClassB l1 vl nc (s.drop i) = none := by
  intro i hi
  have := List.all_eq_true.mp h i (List.mem_range.mpr hi)
  exact tryClassB_none nc (by simpa [Option.isNone_iff_eq_none] using this)

theorem reSub_id {try' : List Char → Option (List Char × Nat)} {s : List Char}
    (h : ∀ i, i < s.length → try' (s.drop i) = none) : reSub try' s = s :=
  reSubF_id try' s s.length h

theorem reSubPos_id {try' : Nat → List Char → Option (List Char × Nat)} {s : List Char}
    (h : ∀ i, i < s.length → try' i (s.drop i) = none) : reSubPos try' s = s :=
  reSubPosF_id try' s s.length 0 (fun i hi => by simpa using h i hi)

/-- `doField` on a document with no matching tag shape: only the skip counter
can move. -/
theorem doField_nomatch (t f : String) (r : Record) (st : EngineState)
    (h1 : noTagB (dtLit t) (dfLit f) st.html = true)
    (h2 : noTagB (dfLit f) (dtLit t) st.html = true) :
    doField t r st f
      = ⟨st.html, st.changes, st.skipped + if (r.get f).isNone then 1 else 0⟩ := by
  cases hv : r.get f with
  | none => simp [doField, hv]
  | some v =>
    have e1 : reSub (tryTagged (dtLit t) (dfLit f) (format_value v f t)) st.html = st.html :=
      reSub_id (fun i hi => tryTagged_none _ (noTagBelowB_spec h1 i hi))
    have e2 : reSub (tryTagged (dfLit f) (dtLit t) (format_value v f t)) st.html = st.html :=
      reSub_id (fun i hi => tryTagged_none _ (noTagBelowB_spec h2 i hi))
    simp [doField, hv, e1, e2]

/-- `doRange` on a document with no matching tag shape is the identity. -/
theorem doRange_nomatch (data : DataMap) (t : String) (r : Record) (st : EngineState)
    (h1 : noTagB (dtLit t) (dfLit "52wk_range") st.html = true)
    (h2 : noTagB (dfLit "52wk_range") (dtLit t) st.html = true) :
    doRange data t r st = st := by
  cases hh : r.get "52wk_high" with
  | none => simp [doRange, hh]
  | some high =>
    cases hl : r.get "52wk_low" with
    | none => simp [doRange, hh, hl]
    | some low =>
      have e1 : ∀ lp nr, reSubPos (tryRange (dtLit t) (dfLit "52wk_range") st.html lp nr) st.html
          = st.html := fun lp nr =>
        reSubPos_id (fun i hi => tryRange_none _ _ _ _ (noTagBelowB_spec h1 i hi))
      have e2 : ∀ lp nr, reSubPos (tryRange (dfLit "52wk_range") (dtLit t) st.html lp nr) st.html
          = st.html := fun lp nr =>
        reSubPos_id (fun i hi => tryRange_none _ _ _ _ (noTagBelowB_spec h2 i hi))
      simp [doRange, hh, hl, e1, e2]

/-- `doClass` on a document with no matching class patterns is the identity. -/
theorem doClass_nomatch (t : String) (r : Record) (st : EngineState)
    (h1 : noClassAB "class=\"val ".toList
      ('"' :: ' ' :: (dtLit t ++ ' ' :: dfLit "net_income")) st.html = true)
    (h2 : noClassBB (dtLit t ++ ' ' :: dfLit "net_income") "class=\"val ".toList st.html = true)
    (h3 : noClassAB "class=\"mono ".toList
      ('"' :: ' ' :: (dtLit t ++ ' ' :: dfLit "net_income")) st.html = true) :
    doClass t r st = st := by
  cases hv : r.get "net_income" with
  | none => simp [doClass, hv]
  | some v =>
    have e1 : ∀ nc, reSub (tryClassA "class=\"val ".toList
        ('"' :: ' ' :: (dtLit t ++ ' ' :: dfLit "net_income")) nc) st.html = st.html :=
      fun nc => reSub_id (noClassAB_spec nc h1)
    have e2 : ∀ nc, reSub (tryClassB (dtLit t ++ ' ' :: dfLit "net_income")
        "class=\"val ".toList nc) st.html = st.html :=
      fun nc => reSub_id (noClassBB_spec nc h2)
    have e3 : ∀ nc, reSub (tryClassA "class=\"mono ".toList
        ('"' :: ' ' :: (dtLit t ++ ' ' :: dfLit "net_income")) nc) st.html = st.html :=
      fun nc => reSub_id (noClassAB_spec nc h3)
    obtain ⟨sh, sc, sk⟩ := st
    simp at e1 e2 e3
    simp [doClass, hv, e1, e2, e3]

/-- Aggregated no-match check for every pattern one ticker's passes build. -/
def noTickerB (t : String) (s : List Char) : Bool :=
  (simpleFieldsList.all fun f => noTagB (dtLit t) (dfLit f) s && noTagB (dfLit f) (dtLit t) s)
    && (noTagB (dtLit t) (dfLit "52wk_range") s && noTagB (dfLit "52wk_range") (dtLit t) s)
    && (noClassAB "class=\"val ".toList ('"' :: ' ' :: (dtLit t ++ ' ' :: dfLit "net_income")) s
      && noClassBB (dtLit t ++ ' ' :: dfLit "net_income") "class=\"val ".toList s
      && noClassAB "class=\"mono ".toList ('"' :: ' ' :: (dtLit t ++ ' ' :: dfLit "net_income")) s)

/-- Aggregated no-match check for every pattern the whole engine builds. -/
def noEngineB (data : DataMap) (s : List Char) : Bool :=
  (data.all fun e => noTickerB e.1 s)
    && noTag1B "data-field=\"last-updated\"".toList s
    && noTag1B "data-field=\"price_date\"".toList s

/-- How many of the six primitive fields are absent in a record. -/
def absentCount (r : Record) : Nat :=
  simpleFieldsList.foldl (fun a f => a + if (r.get f).isNone then 1 else 0) 0

/-- Total skip count the engine accumulates over a data mapping. -/
def skippedTotal (data : DataMap) : Nat := (data.map fun e => absentCount e.2).sum

theorem processTicker_nomatch (data : DataMap) (t : String) (r : Record)
    (st : EngineState) (s : List Char) (hst : st.html = s)
    (h : noTickerB t s = true) :
    processTicker data st (t, r) = ⟨s, st.changes, st.skipped + absentCount r⟩ := by
  rw [noTickerB, Bool.and_eq_true, Bool.and_eq_true, Bool.and_eq_true, Bool.and_eq_true,
    Bool.and_eq_true] at h
  obtain ⟨⟨hflds, hr1, hr2⟩, ⟨hc1, hc2⟩, hc3⟩ := h
  have hfld : ∀ f ∈ simpleFieldsList,
      noTagB (dtLit t) (dfLit f) s = true ∧ noTagB (dfLit f) (dtLit t) s = true := by
    intro f hf
    have := List.all_eq_true.mp hflds f hf
    simpa [Bool.and_eq_true] using this
  obtain ⟨sh, c, k⟩ := st
  have hsh : s = sh := (hst : sh = s).symm
  subst hsh
  have step : ∀ (f : String) (c' k' : Nat), f ∈ simpleFieldsList →
      doField t r ⟨s, c', k'⟩ f
        = ⟨s, c', k' + if (r.get f).isNone then 1 else 0⟩ := by
    intro f c' k' hf
    exact doField_nomatch t f r ⟨s, c', k'⟩ (hfld f hf).1 (hfld f hf).2
  show doClass t r (doRange data t r (simpleFieldsList.foldl (doField t r) ⟨s, c, k⟩)) = _
  rw [show simpleFieldsList.foldl (doField t r) ⟨s, c, k⟩
      = ⟨s, c, k + absentCount r⟩ by
    simp only [simpleFieldsList, List.foldl]
    rw [step "price" c k (by simp [simpleFieldsList])]
    rw [step "mktcap" _ _ (by simp [simpleFieldsList])]
    rw [step "revenue" _ _ (by simp [simpleFieldsList])]
    rw [step "net_income" _ _ (by simp [simpleFieldsList])]
    rw [step "target_price" _ _ (by simp [simpleFieldsList])]
    rw [step "pe_forward" _ _ (by simp [simpleFieldsList])]
    simp only [absentCount, simpleFieldsList, List.foldl]
    congr 1
    omega]
  rw [doRange_nomatch data t r ⟨s, c, k + absentCount r⟩ hr1 hr2]
  exact doClass_nomatch t r ⟨s, c, k + absentCount r⟩ hc1 hc2 hc3

theorem foldl_nomatch (data : DataMap) (s : List Char) :
    ∀ (L : DataMap) (st : EngineState), st.html = s →
      (L.all fun e => noTickerB e.1 s) = true →
      L.foldl (processTicker data) st = ⟨s, st.changes, st.skipped + skippedTotal L⟩ := by
  intro L
  induction L with
  | nil =>
    intro st hst _
    cases st
    cases hst
    simp [skippedTotal]
  | cons e L' ih =>
    intro st hst hall
    rw [List.all_cons, Bool.and_eq_true] at hall
    have h1 := processTicker_nomatch data e.1 e.2 st s hst hall.1
    show List.foldl (processTicker data) (processTicker data st e) L' = _
    rw [show processTicker data st e = ⟨s, st.changes, st.skipped + absentCount e.2⟩ by
      rw [← h1]]
    rw [ih ⟨s, st.changes, st.skipped + absentCount e.2⟩ rfl hall.2]
    simp [skippedTotal]
    omega

/-- If none of the engine's patterns matches anywhere in the document, the
engine returns it byte-identically, reports zero changes, and skips exactly
the absent raw values. -/
theorem update_html_nomatch (s : List Char) (data : DataMap) (now dateLabel : List Char)
    (h : noEngineB data s = true) :
    update_html s data now dateLabel = ⟨s, 0, skippedTotal data⟩ := by
  rw [noEngineB, Bool.and_eq_true, Bool.and_eq_true] at h
  obtain ⟨⟨hdata, hts⟩, hdate⟩ := h
  unfold update_html
  rw [foldl_nomatch data s data ⟨s, 0, 0⟩ rfl hdata]
  have e1 : reSub (tryTagged1 "data-field=\"last-updated\"".toList
      ("Prices last updated: ".toList ++ now)) s = s :=
    reSub_id (fun i hi => tryTagged1_none _ (noTag1BelowB_spec hts i hi))
  have e2 : reSub (tryTagged1 "data-field=\"price_date\"".toList dateLabel) s = s :=
    reSub_id (fun i hi => tryTagged1_none _ (noTag1BelowB_spec hdate i hi))
  simp at e1 e2
  simp [e1, e2]

/-! ## The skip counter counts exactly the absent raw values (any document) -/

theorem doField_skipped (t : String) (r : Record) (st : EngineState) (f : String) :
    (doField t r st f).skipped
      = st.skipped + if (r.get f).isNone then 1 else 0 := by
  cases hv : r.get f with
  | none => simp [doField, hv]
  | some v =>
    simp only [doField, hv]
    split
    · simp
    · simp

theorem doField_changes_ge (t : String) (r : Record) (st : EngineState) (f : String) :
    st.changes ≤ (doField t r st f).changes := by
  cases hv : r.get f with
  | none => simp [doField, hv]
  | some v =>
    simp only [doField, hv]
    split
    · simp
    · simp

theorem doRange_skipped (data : DataMap) (t : String) (r : Record) (st : EngineState) :
    (doRange data t r st).skipped = st.skipped := by
  unfold doRange
  cases r.get "52wk_high" with
  | none => rfl
  | some high =>
    cases r.get "52wk_low" with
    | none => rfl
    | some low =>
      simp only []
      split
      · rfl
      · rfl

theorem doClass_skipped (t : String) (r : Record) (st : EngineState) :
    (doClass t r st).skipped = st.skipped := by
  unfold doClass
  cases r.get "net_income" with
  | none => rfl
  | some v => rfl

theorem fields_foldl_skipped (t : String) (r : Record) (st : EngineState) :
    (simpleFieldsList.foldl (doField t r) st).skipped = st.skipped + absentCount r := by
  simp only [simpleFieldsList, List.foldl, absentCount]
  rw [doField_skipped t r _ "pe_forward", doField_skipped t r _ "target_price",
    doField_skipped t r _ "net_income", doField_skipped t r _ "revenue",
    doField_skipped t r _ "mktcap", doField_skipped t r _ "price"]
  omega

theorem processTicker_skipped (data : DataMap) (st : EngineState) (e : String × Record) :
    (processTicker data st e).skipped = st.skipped + absentCount e.2 := by
  unfold processTicker
  rw [doClass_skipped, doRange_skipped, fields_foldl_skipped]

theorem foldl_skipped (data : DataMap) :
    ∀ (L : DataMap) (st : EngineState),
      (L.foldl (processTicker data) st).skipped = st.skipped + skippedTotal L := by
  intro L
  induction L with
  | nil => intro st; simp [skippedTotal]
  | cons e L' ih =>
    intro st
    show (L'.foldl (processTicker data) (processTicker data st e)).skipped = _
    rw [ih, processTicker_skipped]
    simp [skippedTotal]
    omega

theorem update_html_skipped (html : List Char) (data : DataMap) (now dateLabel : List Char) :
    (update_html html data now dateLabel).skipped = skippedTotal data := by
  unfold update_html
  simp only []
  rw [foldl_skipped]
  simp

/-! ## Formatter lemmas -/

/-- Characters allowed in a rendered nonnegative number. -/
def okNumChar (c : Char) : Bool := c.isDigit || c == '.' || c == ','

theorem digitChar_ok (d : Nat) : okNumChar (digitChar d) = true := by
  unfold digitChar
  split <;> decide

theorem natChars_ok (n : Nat) : ∀ c ∈ natChars n, okNumChar c = true := by
  intro c hc
  unfold natChars at hc
  by_cases h0 : n = 0
  · simp [h0] at hc
    simp [hc]
    decide
  · rw [if_neg h0] at hc
    rw [List.mem_reverse, List.mem_map] at hc
    obtain ⟨d, _, hd⟩ := hc
    rw [← hd]
    exact digitChar_ok d

theorem natCharsPad_ok (w n : Nat) : ∀ c ∈ natCharsPad w n, okNumChar c = true := by
  intro c hc
  unfold natCharsPad at hc
  rw [List.mem_append] at hc
  cases hc with
  | inl h => rw [List.eq_of_mem_replicate h]; decide
  | inr h => exact natChars_ok n c h

theorem groupLE_ok (ds : List Nat) : ∀ i, ∀ c ∈ groupLE i ds, okNumChar c = true := by
  induction ds with
  | nil => intro i c hc; simp [groupLE] at hc
  | cons d ds ih =>
    intro i c hc
    unfold groupLE at hc
    rw [List.mem_append] at hc
    cases hc with
    | inl h =>
      split at h
      · rw [List.mem_cons, List.mem_singleton] at h
        rcases h with h | h
        · rw [h]; decide
        · rw [h]; exact digitChar_ok d
      · rw [List.mem_singleton] at h
        rw [h]; exact digitChar_ok d
    | inr h => exact ih (i + 1) c h

theorem natCharsGrouped_ok (n : Nat) : ∀ c ∈ natCharsGrouped n, okNumChar c = true := by
  intro c hc
  unfold natCharsGrouped at hc
  by_cases h0 : n = 0
  · simp [h0] at hc
    simp [hc]
    decide
  · rw [if_neg h0, List.mem_reverse] at hc
    exact groupLE_ok _ 0 c hc

theorem fixedChars_ok {q : ℚ} (hq : 0 ≤ q) (d : Nat) :
    ∀ c ∈ fixedChars q d, okNumChar c = true := by
  intro c hc
  unfold fixedChars at hc
  rw [if_neg (not_lt.mpr hq)] at hc
  simp only [List.nil_append, List.mem_append] at hc
  rcases hc with h | h
  · exact natChars_ok _ c h
  · by_cases hd : d = 0
    · simp [hd] at h
    · rw [if_neg hd] at h
      rcases List.mem_cons.mp h with h | h
      · rw [h]; decide
      · exact natCharsPad_ok _ _ c h

theorem fixedChars_neg {q : ℚ} (hq : q < 0) (d : Nat) :
    fixedChars q d = '-' :: fixedChars (-q) d := by
  unfold fixedChars
  rw [if_pos hq, if_neg (not_lt.mpr (le_of_lt (neg_pos.mpr hq)))]
  rw [abs_neg]
  rfl

theorem human_readable_neg {v : ℚ} (hv : v < 0) :
    human_readable v = '-' :: human_readable (-v) := by
  unfold human_readable
  rw [abs_neg]
  have h12 : (v / 10 ^ 12 : ℚ) < 0 := div_neg_of_neg_of_pos hv (by norm_num)
  have h9 : (v / 10 ^ 9 : ℚ) < 0 := div_neg_of_neg_of_pos hv (by norm_num)
  have h6 : (v / 10 ^ 6 : ℚ) < 0 := div_neg_of_neg_of_pos hv (by norm_num)
  have h3 : (v / 10 ^ 3 : ℚ) < 0 := div_neg_of_neg_of_pos hv (by norm_num)
  by_cases c12 : (10 ^ 12 : ℚ) ≤ |v|
  · rw [if_pos c12, if_pos c12, neg_div, fixedChars_neg h12]
    rfl
  · rw [if_neg c12, if_neg c12]
    by_cases c9 : (10 ^ 9 : ℚ) ≤ |v|
    · rw [if_pos c9, if_pos c9, neg_div, fixedChars_neg h9]
      rfl
    · rw [if_neg c9, if_neg c9]
      by_cases c6 : (10 ^ 6 : ℚ) ≤ |v|
      · rw [if_pos c6, if_pos c6, neg_div, fixedChars_neg h6]
        rfl
      · rw [if_neg c6, if_neg c6]
        by_cases c3 : (10 ^ 3 : ℚ) ≤ |v|
        · rw [if_pos c3, if_pos c3, neg_div, fixedChars_neg h3]
          rfl
        · rw [if_neg c3, if_neg c3]
          exact fixedChars_neg hv 0

theorem human_readable_nonneg_no_minus {v : ℚ} (hv : 0 ≤ v) :
    '-' ∉ human_readable v := by
  intro hmem
  simp only [human_readable] at hmem
  have hd : ∀ (k : Nat), (0 : ℚ) ≤ v / 10 ^ k :=
    fun k => div_nonneg hv (by positivity)
  have bad : ∀ (k dd : Nat) (suf : Char), suf ≠ '-' →
      '-' ∈ fixedChars (v / 10 ^ k) dd ++ [suf] → False := by
    intro k dd suf hsuf hm
    rcases List.mem_append.mp hm with h | h
    · have := fixedChars_ok (hd k) dd '-' h
      simp [okNumChar] at this
    · exact hsuf (List.mem_singleton.mp h).symm
  split at hmem
  · exact bad 12 2 'T' (by decide) hmem
  · split at hmem
    · exact bad 9 2 'B' (by decide) hmem
    · split at hmem
      · exact bad 6 1 'M' (by decide) hmem
      · split at hmem
        · exact bad 3 1 'K' (by decide) hmem
        · have h0 : fixedChars v 0 = fixedChars (v / 10 ^ 0) 0 := by norm_num
          rw [h0] at hmem
          have := fixedChars_ok (hd 0) 0 '-' hmem
          simp [okNumChar] at this

/-! ## Element shapes and per-pass extraction lemmas -/

/-- Marker tails: `dtLit t = 'd' :: dtTail t` (needed because `tagShape_eq`
takes the second literal in head-cons form). -/
def dtTail (t : String) : List Char := "ata-ticker=\"".toList ++ t.toList ++ ['"']

def dfTail (f : String) : List Char := "ata-field=\"".toList ++ f.toList ++ ['"']

theorem dtLit_cons (t : String) : dtLit t = 'd' :: dtTail t := rfl

theorem dfLit_cons (f : String) : dfLit f = 'd' :: dfTail f := rfl

/-- A marked element with ticker-then-field attributes, its text run, and the
opening `<` of the next tag. -/
def fwElem (t f : String) (sp attrs content : List Char) : List Char :=
  dtLit t ++ (sp ++ (dfLit f ++ (attrs ++ '>' :: (content ++ ['<']))))

/-- The same element with field-then-ticker attributes. -/
def revElem (t f : String) (sp attrs content : List Char) : List Char :=
  dfLit f ++ (sp ++ (dtLit t ++ (attrs ++ '>' :: (content ++ ['<']))))

/-- Capture group 1 of the locator pattern on such an element. -/
def fwG1 (t f : String) (sp attrs : List Char) : List Char :=
  dtLit t ++ sp ++ dfLit f ++ attrs ++ ['>']

def revG1 (t f : String) (sp attrs : List Char) : List Char :=
  dfLit f ++ sp ++ dtLit t ++ attrs ++ ['>']

theorem tagShape_fwElem (t f : String) (sp attrs content B : List Char)
    (hsp : ∀ c ∈ sp, isPySpace c = true) (hspn : sp ≠ [])
    (hattrs : ∀ c ∈ attrs, (c != '>') = true)
    (hcontent : ∀ c ∈ content, (c != '<') = true) :
    tagShape (dtLit t) (dfLit f) (fwElem t f sp attrs content ++ B)
      = some (fwG1 t f sp attrs, content) := by
  have h := tagShape_eq (dtLit t) sp 'd' (dfTail f) attrs content B
    hsp hspn (by decide) hattrs hcontent
  rw [← dfLit_cons] at h
  have harr : fwElem t f sp attrs content ++ B
      = dtLit t ++ (sp ++ (dfLit f ++ (attrs ++ '>' :: (content ++ '<' :: B)))) := by
    simp [fwElem]
  rw [harr]
  rw [dfLit_cons] at h ⊢
  rw [h]
  rfl

theorem tagShape_revElem (t f : String) (sp attrs content B : List Char)
    (hsp : ∀ c ∈ sp, isPySpace c = true) (hspn : sp ≠ [])
    (hattrs : ∀ c ∈ attrs, (c != '>') = true)
    (hcontent : ∀ c ∈ content, (c != '<') = true) :
    tagShape (dfLit f) (dtLit t) (revElem t f sp attrs content ++ B)
      = some (revG1 t f sp attrs, content) := by
  have h := tagShape_eq (dfLit f) sp 'd' (dtTail t) attrs content B
    hsp hspn (by decide) hattrs hcontent
  rw [← dtLit_cons] at h
  have harr : revElem t f sp attrs content ++ B
      = dfLit f ++ (sp ++ (dtLit t ++ (attrs ++ '>' :: (content ++ '<' :: B)))) := by
    simp [revElem]
  rw [harr]
  rw [dtLit_cons] at h ⊢
  rw [h]
  rfl

theorem fwElem_length (t f : String) (sp attrs content : List Char) :
    (fwElem t f sp attrs content).length
      = (fwG1 t f sp attrs).length + content.length + 1 := by
  simp [fwElem, fwG1]
  omega

theorem revElem_length (t f : String) (sp attrs content : List Char) :
    (revElem t f sp attrs content).length
      = (revG1 t f sp attrs).length + content.length + 1 := by
  simp [revElem, revG1]
  omega

/-- The document a primitive-field pass produces, expressed by the two raw
substitutions, once the value is present. -/
theorem doField_html_some (t f : String) (r : Record) (st : EngineState) (v : ℚ)
    (hv : r.get f = some v) :
    (doField t r st f).html
      = reSub (tryTagged (dfLit f) (dtLit t) (format_value v f t))
          (reSub (tryTagged (dtLit t) (dfLit f) (format_value v f t)) st.html) := by
  simp only [doField, hv]
  split
  · next heq => exact heq.symm
  · rfl

theorem doField_none (t f : String) (r : Record) (st : EngineState)
    (hv : r.get f = none) :
    doField t r st f = ⟨st.html, st.changes, st.skipped + 1⟩ := by
  simp [doField, hv]

theorem doRange_html_some (data : DataMap) (t : String) (r : Record) (st : EngineState)
    (high low : ℚ) (hh : r.get "52wk_high" = some high) (hl : r.get "52wk_low" = some low) :
    (doRange data t r st).html
      = reSubPos (tryRange (dfLit "52wk_range") (dtLit t) st.html (lyscfPriceOf data)
            ("52wk: ".toList ++ (curPfx t ++ fixedCharsGrouped low 2) ++ " – ".toList
              ++ (curPfx t ++ fixedCharsGrouped high 2)))
          (reSubPos (tryRange (dtLit t) (dfLit "52wk_range") st.html (lyscfPriceOf data)
            ("52wk: ".toList ++ (curPfx t ++ fixedCharsGrouped low 2) ++ " – ".toList
              ++ (curPfx t ++ fixedCharsGrouped high 2))) st.html) := by
  simp only [doRange, hh, hl]
  split
  · next heq => exact heq.symm
  · rfl

theorem doRange_none_high (data : DataMap) (t : String) (r : Record) (st : EngineState)
    (hh : r.get "52wk_high" = none) : doRange data t r st = st := by
  simp [doRange, hh]

theorem doClass_html_some (t : String) (r : Record) (st : EngineState) (v : ℚ)
    (hv : r.get "net_income" = some v) :
    (doClass t r st).html
      = reSub (tryClassA "class=\"mono ".toList
            ('"' :: ' ' :: (dtLit t ++ ' ' :: dfLit "net_income"))
            (if v < 0 then 'r' else 'g'))
          (reSub (tryClassB (dtLit t ++ ' ' :: dfLit "net_income") "class=\"val ".toList
            (if v < 0 then 'r' else 'g'))
          (reSub (tryClassA "class=\"val ".toList
            ('"' :: ' ' :: (dtLit t ++ ' ' :: dfLit "net_income"))
            (if v < 0 then 'r' else 'g')) st.html)) := by
  simp only [doClass, hv]

theorem doClass_none (t : String) (r : Record) (st : EngineState)
    (hv : r.get "net_income" = none) : doClass t r st = st := by
  simp [doClass, hv]

/-! ## Single-match computations for the claim theorems -/

theorem tryTagged_fwElem (t f : String) (repl sp attrs content B : List Char)
    (hsp : ∀ c ∈ sp, isPySpace c = true) (hspn : sp ≠ [])
    (hattrs : ∀ c ∈ attrs, (c != '>') = true)
    (hcontent : ∀ c ∈ content, (c != '<') = true) :
    tryTagged (dtLit t) (dfLit f) repl (fwElem t f sp attrs content ++ B)
      = some (fwG1 t f sp attrs ++ repl ++ ['<'],
          (fwG1 t f sp attrs).length + content.length + 1) := by
  unfold tryTagged
  rw [tagShape_fwElem t f sp attrs content B hsp hspn hattrs hcontent]

theorem tryTagged_revElem (t f : String) (repl sp attrs content B : List Char)
    (hsp : ∀ c ∈ sp, isPySpace c = true) (hspn : sp ≠ [])
    (hattrs : ∀ c ∈ attrs, (c != '>') = true)
    (hcontent : ∀ c ∈ content, (c != '<') = true) :
    tryTagged (dfLit f) (dtLit t) repl (revElem t f sp attrs content ++ B)
      = some (revG1 t f sp attrs ++ repl ++ ['<'],
          (revG1 t f sp attrs).length + content.length + 1) := by
  unfold tryTagged
  rw [tagShape_revElem t f sp attrs content B hsp hspn hattrs hcontent]

/-- The structure of a marked element: capture group 1, the text run, the
closing `<`. -/
theorem fwElem_decomp (t f : String) (sp attrs content : List Char) :
    fwElem t f sp attrs content = fwG1 t f sp attrs ++ (content ++ ['<']) := by
  simp [fwElem, fwG1]

/-- On a position-consistent scan (the stale document IS the scanned
document), the range scanner hands `range_replacer` exactly the element's own
text run. -/
theorem tryRange_fwElem (t f : String) (lp : Option ℚ) (nr sp attrs content B P : List Char)
    (hsp : ∀ c ∈ sp, isPySpace c = true) (hspn : sp ≠ [])
    (hattrs : ∀ c ∈ attrs, (c != '>') = true)
    (hcontent : ∀ c ∈ content, (c != '<') = true) :
    tryRange (dtLit t) (dfLit f) (P ++ (fwElem t f sp attrs content ++ B)) lp nr
        P.length (fwElem t f sp attrs content ++ B)
      = some (fwG1 t f sp attrs ++ range_replacer lp nr content ++ ['<'],
          (fwG1 t f sp attrs).length + content.length + 1) := by
  unfold tryRange
  rw [tagShape_fwElem t f sp attrs content B hsp hspn hattrs hcontent]
  have hold : ((P ++ (fwElem t f sp attrs content ++ B)).drop
        (P.length + (fwG1 t f sp attrs).length)).take content.length = content := by
    have harr : P ++ (fwElem t f sp attrs content ++ B)
        = (P ++ fwG1 t f sp attrs) ++ (content ++ ('<' :: B)) := by
      rw [fwElem_decomp]
      simp
    rw [harr, List.drop_left' (by simp), List.take_left]
  simp only [hold]

/-- No val/mono class-pattern match at any of the first `n` offsets. -/
def noClassABelowB (l1 l2 s : List Char) (n : Nat) : Bool :=
  (List.range n).all fun i => (tryClassA l1 l2 'g' (s.drop i)).isNone

theorem noClassABelowB_spec {l1 l2 s : List Char} {n : Nat} (nc : Char)
    (h : noClassABelowB l1 l2 s n = true) :
    ∀ i, i < n → tryClassA l1 l2 nc (s.drop i) = none := by
  intro i hi
  have := List.all_eq_true.mp h i (List.mem_range.mpr hi)
  exact tryClassA_none nc (by simpa [Option.isNone_iff_eq_none] using this)

/-- The text span the class-before-markers color pattern matches:
`class="val x" data-ticker="t" data-field="net_income"`. -/
def valClassElem (t : String) (x : Char) : List Char :=
  "class=\"val ".toList ++ (x :: ('"' :: ' ' :: (dtLit t ++ ' ' :: dfLit "net_income")))

theorem tryClassA_valClassElem (t : String) (x nc : Char) (B : List Char)
    (hx : (x == 'r' || x == 'g' || x == 'a') = true) :
    tryClassA "class=\"val ".toList ('"' :: ' ' :: (dtLit t ++ ' ' :: dfLit "net_income")) nc
        (valClassElem t x ++ B)
      = some (valClassElem t nc,
          "class=\"val ".toList.length + 1
            + ('"' :: ' ' :: (dtLit t ++ ' ' :: dfLit "net_income")).length) := by
  unfold tryClassA
  have harr : valClassElem t x ++ B
      = "class=\"val ".toList
          ++ (x :: (('"' :: ' ' :: (dtLit t ++ ' ' :: dfLit "net_income")) ++ B)) := by
    simp [valClassElem]
  rw [harr, stripLit_pre]
  have hs : stripLit (t.data ++ '"' :: ' ' :: dfLit "net_income")
      (t.data ++ '"' :: ' ' :: (dfLit "net_income" ++ B)) = some B := by
    have h2 := stripLit_pre (t.data ++ '"' :: ' ' :: dfLit "net_income") B
    simpa using h2
  simp only [hx, if_pos, stripLit, stripLit_pre, if_true]
  simp [valClassElem, hs]

theorem valClassElem_length (t : String) (x : Char) :
    (valClassElem t x).length
      = "class=\"val ".toList.length + 1
        + ('"' :: ' ' :: (dtLit t ++ ' ' :: dfLit "net_income")).length := by
  simp [valClassElem]
  omega

/-! ## Claim theorems -/

/-- C4: attribute-order invariance of the field locator.  A document carrying
one marked element in ticker-then-field attribute order and one in
field-then-ticker order (and no other occurrence of either pattern, stated by
the decidable no-match side conditions) has both text runs rewritten to the
same formatted value by the primitive-field pass; the text between the tag's
closing `>` and the next `<` is replaced, and every byte outside the two text
runs — including both tags and the text after the next `<` — is preserved. -/
theorem c4_attribute_order_invariance
    (t f : String) (v : ℚ) (r : Record) (ch sk : Nat)
    (p1 p2 p3 sp1 sp2 a1 a2 c1 c2 : List Char)
    (hv : r.get f = some v)
    (hsp1 : ∀ c ∈ sp1, isPySpace c = true) (hn1 : sp1 ≠ [])
    (hsp2 : ∀ c ∈ sp2, isPySpace c = true) (hn2 : sp2 ≠ [])
    (ha1 : ∀ c ∈ a1, (c != '>') = true) (ha2 : ∀ c ∈ a2, (c != '>') = true)
    (hc1 : ∀ c ∈ c1, (c != '<') = true) (hc2 : ∀ c ∈ c2, (c != '<') = true)
    (HF1 : noTagBelowB (dtLit t) (dfLit f)
      (p1 ++ (fwElem t f sp1 a1 c1 ++ (p2 ++ (revElem t f sp2 a2 c2 ++ p3))))
      p1.length = true)
    (HF2 : noTagB (dtLit t) (dfLit f) (p2 ++ (revElem t f sp2 a2 c2 ++ p3)) = true)
    (HR1 : noTagBelowB (dfLit f) (dtLit t)
      ((p1 ++ (fwG1 t f sp1 a1 ++ (format_value v f t ++ ('<' :: p2))))
        ++ (revElem t f sp2 a2 c2 ++ p3))
      (p1 ++ (fwG1 t f sp1 a1 ++ (format_value v f t ++ ('<' :: p2)))).length = true)
    (HR2 : noTagB (dfLit f) (dtLit t) p3 = true) :
    (doField t r
        ⟨p1 ++ (fwElem t f sp1 a1 c1 ++ (p2 ++ (revElem t f sp2 a2 c2 ++ p3))), ch, sk⟩
        f).html
      = p1 ++ (fwG1 t f sp1 a1 ++ (format_value v f t ++ ('<'
          :: (p2 ++ (revG1 t f sp2 a2 ++ (format_value v f t ++ ('<' :: p3))))))) := by
  rw [doField_html_some t f r _ v hv]
  have h1 : reSub (tryTagged (dtLit t) (dfLit f) (format_value v f t))
      (p1 ++ (fwElem t f sp1 a1 c1 ++ (p2 ++ (revElem t f sp2 a2 c2 ++ p3))))
      = p1 ++ ((fwG1 t f sp1 a1 ++ format_value v f t ++ ['<'])
          ++ (p2 ++ (revElem t f sp2 a2 c2 ++ p3))) := by
    apply reSub_single _ p1 (fwElem t f sp1 a1 c1) (p2 ++ (revElem t f sp2 a2 c2 ++ p3))
      (fwG1 t f sp1 a1 ++ format_value v f t ++ ['<'])
      ((fwG1 t f sp1 a1).length + c1.length + 1)
    · exact tryTagged_fwElem t f (format_value v f t) sp1 a1 c1 _ hsp1 hn1 ha1 hc1
    · exact fwElem_length t f sp1 a1 c1
    · omega
    · exact fun i hi => tryTagged_none _ (noTagBelowB_spec HF1 i hi)
    · exact fun i hi => tryTagged_none _ (noTagBelowB_spec HF2 i hi)
  rw [h1]
  have harr : p1 ++ ((fwG1 t f sp1 a1 ++ format_value v f t ++ ['<'])
        ++ (p2 ++ (revElem t f sp2 a2 c2 ++ p3)))
      = (p1 ++ (fwG1 t f sp1 a1 ++ (format_value v f t ++ ('<' :: p2))))
        ++ (revElem t f sp2 a2 c2 ++ p3) := by
    simp
  rw [harr]
  have h2 : reSub (tryTagged (dfLit f) (dtLit t) (format_value v f t))
      ((p1 ++ (fwG1 t f sp1 a1 ++ (format_value v f t ++ ('<' :: p2))))
        ++ (revElem t f sp2 a2 c2 ++ p3))
      = (p1 ++ (fwG1 t f sp1 a1 ++ (format_value v f t ++ ('<' :: p2))))
        ++ ((revG1 t f sp2 a2 ++ format_value v f t ++ ['<']) ++ p3) := by
    apply reSub_single _ _ (revElem t f sp2 a2 c2) p3
      (revG1 t f sp2 a2 ++ format_value v f t ++ ['<'])
      ((revG1 t f sp2 a2).length + c2.length + 1)
    · exact tryTagged_revElem t f (format_value v f t) sp2 a2 c2 _ hsp2 hn2 ha2 hc2
    · exact revElem_length t f sp2 a2 c2
    · omega
    · exact fun i hi => tryTagged_none _ (noTagBelowB_spec HR1 i hi)
    · exact fun i hi => tryTagged_none _ (noTagBelowB_spec HR2 i hi)
  rw [h2]
  simp

theorem c4_attribute_order_invariance_witness :
    (doField "MP" (⟨some (51/10), none, none, none, none, none, none, none⟩ : Record)
        ⟨"<a ".toList ++ (fwElem "MP" "price" [' '] [] "x".toList ++ ("</a><b ".toList
          ++ (revElem "MP" "price" [' '] [] "y".toList ++ "</b>".toList))), 0, 0⟩
        "price").html
      = "<a ".toList ++ (fwG1 "MP" "price" [' '] []
          ++ (format_value (51/10) "price" "MP" ++ ('<'
          :: ("</a><b ".toList ++ (revG1 "MP" "price" [' '] []
          ++ (format_value (51/10) "price" "MP" ++ ('<' :: "</b>".toList))))))) :=
  c4_attribute_order_invariance "MP" "price" (51/10)
    ⟨some (51/10), none, none, none, none, none, none, none⟩ 0 0
    "<a ".toList "</a><b ".toList "</b>".toList [' '] [' '] [] [] "x".toList "y".toList
    (by decide) (by decide) (by decide) (by decide) (by decide) (by decide) (by decide)
    (by decide) (by decide) (by decide) (by decide) (by decide) (by decide)

/-! ## Concrete fixtures for the claim instances -/

/-- A record holding only the 52-week high (8.80) and low (3.50). -/
def recRange : Record := ⟨none, none, none, none, some (88/10), some (35/10), none, none⟩

/-- A record holding only the 52-week low. -/
def recLowOnly : Record := ⟨none, none, none, none, none, some (35/10), none, none⟩

/-- The LYSCF record: a spot price of 4.50 only. -/
def recLyscf : Record := ⟨some (45/10), none, none, none, none, none, none, none⟩

/-- All eight raw values present. -/
def recFull : Record := ⟨some 1, some 2, some 3, some 4, some 5, some 6, some 7, some 8⟩

/-- Only the price present. -/
def recPriceOnly : Record := ⟨some (51/10), none, none, none, none, none, none, none⟩

/-- Only the net income present. -/
def recNI (v : ℚ) : Record := ⟨none, none, none, some v, none, none, none, none⟩

/-- All primitive fields present except the consensus target price. -/
def recNoTgt : Record := ⟨some 1, some 2, some 3, some 4, some 5, some 6, none, some 8⟩

/-- A fixed reading of the wall clock, as the two strftime strings. -/
def nowFix : List Char := "Oct 12, 2025 09:00 AM ET".toList

def dateFix : List Char := "Price (Oct 12)".toList

/-- The non-idempotence document: a forward-order 52wk-range element whose
rewrite grows the text by 18 characters, followed by a reversed-order element
whose stale-indexed old text then reads 18 bytes past its own text run. -/
def docC1 : List Char :=
  ("<span data-ticker=\"CRML\" data-field=\"52wk_range\">x</span>"
    ++ "<i data-field=\"52wk_range\" data-ticker=\"CRML\">"
    ++ "ffffffffffffffffff52wk: A · </i>abcdefghijklmn").toList

def dataC1 : DataMap := [("CRML", recRange)]

/-- The range-preservation scenario document of the spec. -/
def docC2 : List Char :=
  ("<span data-ticker=\"CRML\" data-field=\"52wk_range\">"
    ++ "US OTC: ~$4.10 · 52wk: $3.00 – $9.00 · ATH $10.25</span>").toList

def docC2out : List Char :=
  ("<span data-ticker=\"CRML\" data-field=\"52wk_range\">"
    ++ "US OTC: ~$4.50 · 52wk: $3.50 – $8.80 · ATH $10.25</span>").toList

def dataC2 : DataMap := [("CRML", recRange), ("LYSCF", recLyscf)]

/-- C1: idempotence of the substitution engine at a fixed wall-clock reading
FAILS on the code.  On `docC1` the forward-order range rewrite grows the
document by 18 bytes, so the reversed-order rewrite's callback — which slices
`old_text` out of the ticker-loop's stale `html` variable while the scan runs
over the already-rewritten string — reads 18 bytes past its own text run and
splices a `<` plus following bytes into the text it writes; the second run
then truncates that text at the new `<` and produces a different document. -/
theorem c1_idempotence_fails_on_code :
    (update_html (update_html docC1 dataC1 nowFix dateFix).html dataC1 nowFix dateFix).html
      ≠ (update_html docC1 dataC1 nowFix dateFix).html := by
  decide

/-- C7: the zero-matches case is indeed silent and leaves the document
unchanged, but it is NOT counted toward the skipped count: a record with all
six primitive values present run against a document with no marked element
leaves the skipped counter at 0, not 6 — only absent raw values are
counted. -/
theorem c7_counterexample_zero_matches_not_counted :
    update_html "hello".toList [("MP", recFull)] nowFix dateFix
        = ⟨"hello".toList, 0, 0⟩
      ∧ (update_html "hello".toList [("MP", recFull)] nowFix dateFix).skipped ≠ 6 := by
  constructor
  · decide
  · decide

/-- C7 (amended): when none of the engine's patterns matches anywhere in the
document, every update is skipped silently — the document is returned
byte-identically and the changed count is 0 — and the skipped counter counts
exactly the absent raw values, not the zero-match fields. -/
theorem c7_amended_zero_matches_silent (s : List Char) (data : DataMap)
    (now dateLabel : List Char) (h : noEngineB data s = true) :
    update_html s data now dateLabel = ⟨s, 0, skippedTotal data⟩ :=
  update_html_nomatch s data now dateLabel h

theorem c7_amended_zero_matches_silent_witness :
    update_html "hello".toList [("MP", recFull)] nowFix dateFix
      = ⟨"hello".toList, 0, skippedTotal [("MP", recFull)]⟩ :=
  c7_amended_zero_matches_silent "hello".toList [("MP", recFull)] nowFix dateFix (by decide)

/-- C8: an absent raw value increments the skipped counter by exactly one and
leaves the document alone for that field.  First conjunct: on every document
and data mapping the final skipped count is exactly the number of absent
primitive fields summed over the entities.  Second conjunct: the spec's
scenario — an entity lacking only `target_price`, a document holding one
`target_price`-marked element — ends with the element byte-identical, zero
changes, and a skipped count of one. -/
theorem c8_missing_value_skipped :
    (∀ (html : List Char) (data : DataMap) (now dateLabel : List Char),
        (update_html html data now dateLabel).skipped = skippedTotal data)
    ∧ update_html "<span data-ticker=\"MP\" data-field=\"target_price\">$10.00</span>".toList
        [("MP", recNoTgt)] nowFix dateFix
      = ⟨"<span data-ticker=\"MP\" data-field=\"target_price\">$10.00</span>".toList, 0, 1⟩ := by
  constructor
  · exact update_html_skipped
  · decide

/-- C9: change accounting FAILS on the code: the class-toggle pass rewrites an
element (the document changes) yet contributes nothing to the changed count —
here one element's class token flips `g` to `r` while `changes` stays 0. -/
theorem c9_counterexample_class_toggle_uncounted :
    update_html "class=\"mono g\" data-ticker=\"MP\" data-field=\"net_income\"".toList
        [("MP", recNI (-5))] nowFix dateFix
      = ⟨"class=\"mono r\" data-ticker=\"MP\" data-field=\"net_income\"".toList, 0, 5⟩
      ∧ ("class=\"mono r\" data-ticker=\"MP\" data-field=\"net_income\"".toList : List Char)
        ≠ "class=\"mono g\" data-ticker=\"MP\" data-field=\"net_income\"".toList := by
  constructor
  · decide
  · decide

/-- C9 (amended): what the engine actually counts.  A primitive-field pass
that changed the text adds the number of pattern matches (two price elements
add two); the composite range pass adds exactly one per ticker even when it
rewrites two elements; the class-toggle pass and the unconditional timestamp
pass add nothing even when they change the document; and the counters plus the
returned text are the engine's entire result (it is a pure function into
`EngineState` — no file access).  The skipped counter counts absent values. -/
theorem c9_amended_change_accounting :
    (update_html ("<a data-ticker=\"MP\" data-field=\"price\">a</a>"
        ++ "<b data-ticker=\"MP\" data-field=\"price\">b</b>").toList
        [("MP", recPriceOnly)] nowFix dateFix).changes = 2
    ∧ update_html ("<a data-ticker=\"MP\" data-field=\"52wk_range\">a</a>"
        ++ "<b data-ticker=\"MP\" data-field=\"52wk_range\">b</b>").toList
        [("MP", recRange)] nowFix dateFix
      = ⟨("<a data-ticker=\"MP\" data-field=\"52wk_range\">52wk: $3.50 – $8.80</a>"
          ++ "<b data-ticker=\"MP\" data-field=\"52wk_range\">52wk: $3.50 – $8.80</b>").toList,
        1, 6⟩
    ∧ (update_html "<i data-field=\"last-updated\">old</i>".toList ([] : DataMap)
        nowFix dateFix).changes = 0
    ∧ (update_html "<i data-field=\"last-updated\">old</i>".toList ([] : DataMap)
        nowFix dateFix).html ≠ "<i data-field=\"last-updated\">old</i>".toList := by
  refine ⟨?_, ?_, ?_, ?_⟩
  · decide
  · decide
  · decide
  · decide

/-- C3: the formatter's shape.  Price-like kinds are the currency marker plus
the thousands-grouped two-decimal rendering; magnitude kinds scale by the
absolute value with B at two decimals, M at one, and below a thousand a bare
integer; zero revenue is the bare marked zero; negative net income carries a
single leading minus placed before the currency marker (and no other minus
appears); the forward multiple is one-decimal with a literal `x` and no
marker; AUD-flagged entities use the `A$` marker; and the spec's concrete
examples, including a grouped price. -/
theorem c3_formatter_shape :
    (∀ (v : ℚ) (t : String), format_value v "price" t = curPfx t ++ fixedCharsGrouped v 2)
    ∧ (∀ (v : ℚ) (t : String),
        format_value v "target_price" t = curPfx t ++ fixedCharsGrouped v 2)
    ∧ (∀ (v : ℚ) (t : String), (10 ^ 12 : ℚ) ≤ |v| →
        format_value v "mktcap" t = curPfx t ++ (fixedChars (v / 10 ^ 12) 2 ++ ['T']))
    ∧ (∀ (v : ℚ) (t : String), (10 ^ 9 : ℚ) ≤ |v| → |v| < 10 ^ 12 →
        format_value v "mktcap" t = curPfx t ++ (fixedChars (v / 10 ^ 9) 2 ++ ['B']))
    ∧ (∀ (v : ℚ) (t : String), (10 ^ 6 : ℚ) ≤ |v| → |v| < 10 ^ 9 →
        format_value v "mktcap" t = curPfx t ++ (fixedChars (v / 10 ^ 6) 1 ++ ['M']))
    ∧ (∀ (v : ℚ) (t : String), (10 ^ 3 : ℚ) ≤ |v| → |v| < 10 ^ 6 →
        format_value v "mktcap" t = curPfx t ++ (fixedChars (v / 10 ^ 3) 1 ++ ['K']))
    ∧ (∀ (v : ℚ) (t : String), |v| < 10 ^ 3 →
        format_value v "mktcap" t = curPfx t ++ fixedChars v 0)
    ∧ (∀ t : String, format_value 0 "revenue" t = curPfx t ++ ['0'])
    ∧ (∀ (v : ℚ) (t : String), v < 0 →
        format_value v "net_income" t = '-' :: (curPfx t ++ human_readable (-v))
          ∧ '-' ∉ curPfx t ++ human_readable (-v))
    ∧ (∀ (v : ℚ) (t : String), format_value v "pe_forward" t = fixedChars v 1 ++ ['x'])
    ∧ (∀ v : ℚ, format_value v "price" "LYC_AX" = 'A' :: '$' :: fixedCharsGrouped v 2)
    ∧ format_value 12500000000 "mktcap" "MP" = "$12.50B".toList
    ∧ format_value (-3200000) "net_income" "MP" = "-$3.2M".toList
    ∧ format_value 0 "revenue" "MP" = "$0".toList
    ∧ format_value (125 / 10) "pe_forward" "MP" = "12.5x".toList
    ∧ format_value (51 / 10) "price" "LYC_AX" = "A$5.10".toList
    ∧ format_value (12345 / 10) "price" "MP" = "$1,234.50".toList := by
  have hmk : ∀ (v : ℚ) (t : String), format_value v "mktcap" t = curPfx t ++ human_readable v :=
    fun v t => rfl
  refine ⟨fun v t => rfl, fun v t => rfl, ?_, ?_, ?_, ?_, ?_, fun t => rfl, ?_,
    fun v t => rfl, fun v => rfl, by decide, by decide, by decide, by decide, by decide,
    by decide⟩
  · intro v t h12
    rw [hmk]
    simp only [human_readable]
    rw [if_pos h12]
  · intro v t h9 h12
    rw [hmk]
    simp only [human_readable]
    rw [if_neg (not_le.mpr h12), if_pos h9]
  · intro v t h6 h9
    rw [hmk]
    simp only [human_readable]
    rw [if_neg (not_le.mpr (lt_trans h9 (by norm_num))), if_neg (not_le.mpr h9), if_pos h6]
  · intro v t h3 h6
    rw [hmk]
    simp only [human_readable]
    rw [if_neg (not_le.mpr (lt_trans h6 (by norm_num))),
      if_neg (not_le.mpr (lt_trans h6 (by norm_num))), if_neg (not_le.mpr h6), if_pos h3]
  · intro v t h3
    rw [hmk]
    simp only [human_readable]
    rw [if_neg (not_le.mpr (lt_trans h3 (by norm_num))),
      if_neg (not_le.mpr (lt_trans h3 (by norm_num))),
      if_neg (not_le.mpr (lt_trans h3 (by norm_num))), if_neg (not_le.mpr h3)]
  · intro v t hv
    constructor
    · show (if v < 0 then '-' :: (curPfx t ++ human_readable |v|)
          else curPfx t ++ human_readable v) = _
      rw [if_pos hv, abs_of_neg hv]
    · intro hmem
      rcases List.mem_append.mp hmem with h | h
      · revert h
        unfold curPfx
        split
        · decide
        · decide
      · exact human_readable_nonneg_no_minus (le_of_lt (neg_pos.mpr hv)) h

theorem c3_formatter_shape_witness :
    format_value 7000000000 "mktcap" "MP"
      = curPfx "MP" ++ (fixedChars ((7000000000 : ℚ) / 10 ^ 9) 2 ++ ['B'])
    ∧ format_value (-450) "net_income" "MP"
      = '-' :: (curPfx "MP" ++ human_readable (-(-450 : ℚ))) := by
  constructor
  · exact c3_formatter_shape.2.2.2.1 7000000000 "MP" (by decide) (by decide)
  · exact (c3_formatter_shape.2.2.2.2.2.2.2.2.1 (-450) "MP" (by decide)).1

/-- C10: negative magnitude values.  The scaling branch is chosen by the
absolute value, so a negative number scales exactly like its negation with a
minus folded into the rendered number — `human_readable v = '-' ::
human_readable (-v)` for `v < 0` — and therefore market cap and revenue place
the minus after the currency marker (eg. -2000000000 becomes `$-2.00B`),
unlike net income's documented leading-minus form. -/
theorem c10_negative_magnitudes :
    (∀ v : ℚ, v < 0 → human_readable v = '-' :: human_readable (-v))
    ∧ (∀ (v : ℚ) (t : String), v < 0 →
        format_value v "mktcap" t = curPfx t ++ ('-' :: human_readable (-v)))
    ∧ (∀ (v : ℚ) (t : String), v < 0 →
        format_value v "revenue" t = curPfx t ++ ('-' :: human_readable (-v)))
    ∧ format_value (-2000000000) "mktcap" "MP" = "$-2.00B".toList := by
  refine ⟨fun v hv => human_readable_neg hv, ?_, ?_, by decide⟩
  · intro v t hv
    show curPfx t ++ human_readable v = _
    rw [human_readable_neg hv]
  · intro v t hv
    show (if v = 0 then curPfx t ++ ['0'] else curPfx t ++ human_readable v) = _
    rw [if_neg (ne_of_lt hv), human_readable_neg hv]

theorem c10_negative_magnitudes_witness :
    format_value (-5000000000) "mktcap" "MP"
      = curPfx "MP" ++ ('-' :: human_readable (-(-5000000000 : ℚ))) :=
  c10_negative_magnitudes.2.1 (-5000000000) "MP" (by decide)

/-- C2 (amended): the composite range rewrite with decoration preservation,
restricted to position-consistent runs — the hypothesis the counterexample
below forces, since a reversed-attribute-order run that follows a
length-changing forward-order rewrite has its decorations parsed from stale
bytes instead of its own text.  First conjunct, the spec's scenario verbatim:
old text `US OTC: ~$4.10 · 52wk: $3.00 – $9.00 · ATH $10.25`, new low/high
3.50/8.80 and a LYSCF price of 4.50 produce
`US OTC: ~$4.50 · 52wk: $3.50 – $8.80 · ATH $10.25` (one change; the eleven
absent raw values are skipped).  Second conjunct: with the high absent the
range run is left unchanged.  Third conjunct, the general shape: for every
entity whose record carries exactly the 52-week high and low, a document with
one range-marked element (and no other matches, stated by the decidable side
conditions — which is precisely a position-consistent run) has that element's
text run replaced by `range_replacer` applied to the run's own old text — the
optional regenerated-or-copied OTC marker, then the fresh `52wk: low – high`
in the two-decimal currency format, then the preserved `· ...` suffix — with
every byte outside the run intact. -/
theorem c2_range_rewrite_preserves_decorations :
    update_html docC2 dataC2 nowFix dateFix = ⟨docC2out, 1, 11⟩
    ∧ update_html docC2 [("CRML", recLowOnly)] nowFix dateFix = ⟨docC2, 0, 6⟩
    ∧ ∀ (t : String) (high low : ℚ) (P B sp attrs content now dateLabel : List Char),
        (∀ c ∈ sp, isPySpace c = true) → sp ≠ [] →
        (∀ c ∈ attrs, (c != '>') = true) →
        (∀ c ∈ content, (c != '<') = true) →
        noTagBelowB (dtLit t) (dfLit "52wk_range")
          (P ++ (fwElem t "52wk_range" sp attrs content ++ B)) P.length = true →
        noTagB (dtLit t) (dfLit "52wk_range") B = true →
        noTagB (dfLit "52wk_range") (dtLit t)
          (P ++ (fwG1 t "52wk_range" sp attrs
            ++ (range_replacer (lyscfPriceOf [(t, ⟨none, none, none, none, some high,
                  some low, none, none⟩)])
                ("52wk: ".toList ++ (curPfx t ++ fixedCharsGrouped low 2) ++ " – ".toList
                  ++ (curPfx t ++ fixedCharsGrouped high 2)) content
              ++ ('<' :: B)))) = true →
        noTag1B "data-field=\"last-updated\"".toList
          (P ++ (fwG1 t "52wk_range" sp attrs
            ++ (range_replacer (lyscfPriceOf [(t, ⟨none, none, none, none, some high,
                  some low, none, none⟩)])
                ("52wk: ".toList ++ (curPfx t ++ fixedCharsGrouped low 2) ++ " – ".toList
                  ++ (curPfx t ++ fixedCharsGrouped high 2)) content
              ++ ('<' :: B)))) = true →
        noTag1B "data-field=\"price_date\"".toList
          (P ++ (fwG1 t "52wk_range" sp attrs
            ++ (range_replacer (lyscfPriceOf [(t, ⟨none, none, none, none, some high,
                  some low, none, none⟩)])
                ("52wk: ".toList ++ (curPfx t ++ fixedCharsGrouped low 2) ++ " – ".toList
                  ++ (curPfx t ++ fixedCharsGrouped high 2)) content
              ++ ('<' :: B)))) = true →
        (update_html (P ++ (fwElem t "52wk_range" sp attrs content ++ B))
            [(t, ⟨none, none, none, none, some high, some low, none, none⟩)]
            now dateLabel).html
          = P ++ (fwG1 t "52wk_range" sp attrs
              ++ (range_replacer (lyscfPriceOf [(t, ⟨none, none, none, none, some high,
                    some low, none, none⟩)])
                  ("52wk: ".toList ++ (curPfx t ++ fixedCharsGrouped low 2) ++ " – ".toList
                    ++ (curPfx t ++ fixedCharsGrouped high 2)) content
                ++ ('<' :: B))) := by
  refine ⟨by decide, by decide, ?_⟩
  intro t high low P B sp attrs content now dateLabel hsp hspn hattrs hcontent
    HF1 HF2 HREV HTS HPD
  set r : Record := ⟨none, none, none, none, some high, some low, none, none⟩ with hr
  set doc : List Char := P ++ (fwElem t "52wk_range" sp attrs content ++ B) with hdoc
  set lp : Option ℚ := lyscfPriceOf [(t, r)] with hlp
  set nr : List Char := "52wk: ".toList ++ (curPfx t ++ fixedCharsGrouped low 2)
    ++ " – ".toList ++ (curPfx t ++ fixedCharsGrouped high 2) with hnr
  set doc' : List Char := P ++ (fwG1 t "52wk_range" sp attrs
    ++ (range_replacer lp nr content ++ ('<' :: B))) with hdoc'
  have hfold : doField t r (doField t r (doField t r (doField t r (doField t r
        (doField t r ⟨doc, 0, 0⟩ "price") "mktcap") "revenue") "net_income")
        "target_price") "pe_forward" = ⟨doc, 0, 6⟩ := by
    rw [doField_none t "price" r _ rfl, doField_none t "mktcap" r _ rfl,
      doField_none t "revenue" r _ rfl, doField_none t "net_income" r _ rfl,
      doField_none t "target_price" r _ rfl, doField_none t "pe_forward" r _ rfl]
  have hrange : (doRange [(t, r)] t r ⟨doc, 0, 6⟩).html = doc' := by
    rw [doRange_html_some [(t, r)] t r ⟨doc, 0, 6⟩ high low rfl rfl]
    have h1 : reSubPos (tryRange (dtLit t) (dfLit "52wk_range")
          (⟨doc, 0, 6⟩ : EngineState).html lp nr) (⟨doc, 0, 6⟩ : EngineState).html
        = P ++ ((fwG1 t "52wk_range" sp attrs ++ range_replacer lp nr content ++ ['<'])
            ++ B) := by
      show reSubPos (tryRange (dtLit t) (dfLit "52wk_range") doc lp nr) doc = _
      rw [hdoc]
      apply reSubPos_single _ P (fwElem t "52wk_range" sp attrs content) B
        (fwG1 t "52wk_range" sp attrs ++ range_replacer lp nr content ++ ['<'])
        ((fwG1 t "52wk_range" sp attrs).length + content.length + 1)
      · exact tryRange_fwElem t "52wk_range" lp nr sp attrs content B P
          hsp hspn hattrs hcontent
      · exact fwElem_length t "52wk_range" sp attrs content
      · omega
      · exact fun i hi => tryRange_none _ _ _ _ (noTagBelowB_spec (by rw [← hdoc]; exact HF1) i hi)
      · exact fun i hi => tryRange_none _ _ _ _ (noTagBelowB_spec HF2 i hi)
    rw [h1]
    have harr : P ++ ((fwG1 t "52wk_range" sp attrs ++ range_replacer lp nr content ++ ['<'])
          ++ B) = doc' := by
      rw [hdoc']
      simp
    rw [harr]
    exact reSubPos_id (fun i hi => tryRange_none _ _ _ _ (noTagBelowB_spec HREV i hi))
  show (update_html doc [(t, r)] now dateLabel).html = doc'
  have hst : List.foldl (processTicker [(t, r)]) ⟨doc, 0, 0⟩ [(t, r)]
      = doClass t r (doRange [(t, r)] t r ⟨doc, 0, 6⟩) := by
    simp only [List.foldl, processTicker, hfold]
  have hclass : (doClass t r (doRange [(t, r)] t r ⟨doc, 0, 6⟩)).html = doc' := by
    rw [doClass_none t r _ rfl]
    exact hrange
  show reSub (tryTagged1 "data-field=\"price_date\"".toList dateLabel)
      (reSub (tryTagged1 "data-field=\"last-updated\"".toList
        ("Prices last updated: ".toList ++ now))
        (List.foldl (processTicker [(t, r)]) ⟨doc, 0, 0⟩ [(t, r)]).html) = doc'
  rw [hst, hclass]
  rw [reSub_id (fun i hi => tryTagged1_none _ (noTag1BelowB_spec HTS i hi))]
  exact reSub_id (fun i hi => tryTagged1_none _ (noTag1BelowB_spec HPD i hi))

/-- C2, counterexample to the claim as stated.  The claim quantifies over
every matching range-marked text run and promises each is replaced by the
optional regenerated OTC marker, the fresh range, and a `· ...` suffix
preserved from that run's own old text.  On `docC1` the reversed-order run's
own old text is `ffffffffffffffffff52wk: A · `, whose decode carries no OTC
marker and no suffix (second conjunct: `range_replacer` of that text is the
bare new range), so the claim predicts the run becomes exactly
`52wk: $3.50 – $8.80`; the code instead splices ` · </i>abcdefghijklmn` —
stale bytes read 18 positions past the run after the forward-order rewrite
grew the document — into the replacement (first conjunct), and the produced
document differs from the claimed one (third conjunct). -/
theorem c2_counterexample_stale_decoration_spliced :
    (update_html docC1 dataC1 nowFix dateFix).html
      = ("<span data-ticker=\"CRML\" data-field=\"52wk_range\">52wk: $3.50 – $8.80</span>"
          ++ "<i data-field=\"52wk_range\" data-ticker=\"CRML\">52wk: $3.50 – $8.80 · </i>"
          ++ "abcdefghijklmn</i>abcdefghijklmn").toList
    ∧ range_replacer (lyscfPriceOf dataC1)
        "52wk: $3.50 – $8.80".toList "ffffffffffffffffff52wk: A · ".toList
      = "52wk: $3.50 – $8.80".toList
    ∧ (update_html docC1 dataC1 nowFix dateFix).html
      ≠ ("<span data-ticker=\"CRML\" data-field=\"52wk_range\">52wk: $3.50 – $8.80</span>"
          ++ "<i data-field=\"52wk_range\" data-ticker=\"CRML\">52wk: $3.50 – $8.80</i>"
          ++ "abcdefghijklmn").toList := by
  refine ⟨?_, ?_, ?_⟩
  · decide
  · decide
  · decide

theorem c2_range_rewrite_preserves_decorations_witness :
    (update_html ("<p ".toList ++ (fwElem "CRML" "52wk_range" [' '] []
        "US OTC: ~$4.10 · 52wk: $3.00 – $9.00 · ATH $10.25".toList ++ "/p>".toList))
        [("CRML", ⟨none, none, none, none, some (88/10), some (35/10), none, none⟩)]
        nowFix dateFix).html
      = "<p ".toList ++ (fwG1 "CRML" "52wk_range" [' '] []
          ++ (range_replacer (lyscfPriceOf [("CRML", ⟨none, none, none, none, some (88/10),
                some (35/10), none, none⟩)])
              ("52wk: ".toList ++ (curPfx "CRML" ++ fixedCharsGrouped (35/10) 2)
                ++ " – ".toList ++ (curPfx "CRML" ++ fixedCharsGrouped (88/10) 2))
              "US OTC: ~$4.10 · 52wk: $3.00 – $9.00 · ATH $10.25".toList
            ++ ('<' :: "/p>".toList))) :=
  c2_range_rewrite_preserves_decorations.2.2 "CRML" (88/10) (35/10)
    "<p ".toList "/p>".toList [' '] []
    "US OTC: ~$4.10 · 52wk: $3.00 – $9.00 · ATH $10.25".toList nowFix dateFix
    (by decide) (by decide) (by decide) (by decide) (by decide) (by decide)
    (by decide) (by decide) (by decide)

/-- C5: the sign-class toggle FAILS for the field-then-ticker marker order.
On an element `class="val g" data-field="net_income" data-ticker="X"` with a
net income of -150, the claim demands the class token flip to `r`; the code's
three color patterns all hard-wire the ticker-then-field order, so the class
token stays `g` (the element's text run is still rewritten to `-$150` by the
primitive-field pass, whose patterns do cover both orders). -/
theorem c5_counterexample_reversed_markers_not_toggled :
    update_html
        "<b class=\"val g\" data-field=\"net_income\" data-ticker=\"X\">z</b>".toList
        [("X", recNI (-150))] nowFix dateFix
      = ⟨"<b class=\"val g\" data-field=\"net_income\" data-ticker=\"X\">-$150</b>".toList,
          1, 5⟩
      ∧ ("<b class=\"val g\" data-field=\"net_income\" data-ticker=\"X\">-$150</b>".toList
          : List Char)
        ≠ "<b class=\"val r\" data-field=\"net_income\" data-ticker=\"X\">-$150</b>".toList := by
  constructor
  · decide
  · decide

/-- C5 (amended): the toggle as the code implements it.  With net income
present, the sign token flips to `r` when negative and `g` otherwise, only
for elements whose markers appear in ticker-then-field order: the
class-before-markers form is retargeted for both the `val ` and `mono `
presentations, the markers-before-class form only for `val `; only the class
token changes, never the element's text.  First conjunct: the general
class-before-markers `val` case through `doClass` for any sign token in
{r, g, a}.  Then the spec's concrete scenarios through the whole engine:
net -150 on `class="val g"` gives `val r`; net 0 on `class="val r"` gives
`val g`; markers-before-class `val` and class-before-markers `mono` are
toggled; markers-before-class `mono` is NOT. -/
theorem c5_amended_sign_class_toggle :
    (∀ (t : String) (v : ℚ) (x : Char) (r : Record) (ch sk : Nat) (P B : List Char),
        r.get "net_income" = some v →
        (x == 'r' || x == 'g' || x == 'a') = true →
        noClassABelowB "class=\"val ".toList
          ('"' :: ' ' :: (dtLit t ++ ' ' :: dfLit "net_income"))
          (P ++ (valClassElem t x ++ B)) P.length = true →
        noClassAB "class=\"val ".toList
          ('"' :: ' ' :: (dtLit t ++ ' ' :: dfLit "net_income")) B = true →
        noClassBB (dtLit t ++ ' ' :: dfLit "net_income") "class=\"val ".toList
          (P ++ (valClassElem t (if v < 0 then 'r' else 'g') ++ B)) = true →
        noClassAB "class=\"mono ".toList
          ('"' :: ' ' :: (dtLit t ++ ' ' :: dfLit "net_income"))
          (P ++ (valClassElem t (if v < 0 then 'r' else 'g') ++ B)) = true →
        (doClass t r ⟨P ++ (valClassElem t x ++ B), ch, sk⟩).html
          = P ++ (valClassElem t (if v < 0 then 'r' else 'g') ++ B))
    ∧ update_html
        "<span class=\"val g\" data-ticker=\"X\" data-field=\"net_income\">-150</span>".toList
        [("X", recNI (-150))] nowFix dateFix
      = ⟨"<span class=\"val r\" data-ticker=\"X\" data-field=\"net_income\">-$150</span>".toList,
          1, 5⟩
    ∧ update_html
        "<span class=\"val r\" data-ticker=\"X\" data-field=\"net_income\">0</span>".toList
        [("X", recNI 0)] nowFix dateFix
      = ⟨"<span class=\"val g\" data-ticker=\"X\" data-field=\"net_income\">$0</span>".toList,
          1, 5⟩
    ∧ update_html
        "<td data-ticker=\"X\" data-field=\"net_income\" class=\"val g\">z</td>".toList
        [("X", recNI (-150))] nowFix dateFix
      = ⟨"<td data-ticker=\"X\" data-field=\"net_income\" class=\"val r\">-$150</td>".toList,
          1, 5⟩
    ∧ update_html
        "<td class=\"mono g\" data-ticker=\"X\" data-field=\"net_income\">z</td>".toList
        [("X", recNI (-150))] nowFix dateFix
      = ⟨"<td class=\"mono r\" data-ticker=\"X\" data-field=\"net_income\">-$150</td>".toList,
          1, 5⟩
    ∧ update_html
        "<td data-ticker=\"X\" data-field=\"net_income\" class=\"mono g\">z</td>".toList
        [("X", recNI (-150))] nowFix dateFix
      = ⟨"<td data-ticker=\"X\" data-field=\"net_income\" class=\"mono g\">-$150</td>".toList,
          1, 5⟩ := by
  refine ⟨?_, by decide, by decide, by decide, by decide, by decide⟩
  intro t v x r ch sk P B hv hx H1 H2 H3 H4
  rw [doClass_html_some t r _ v hv]
  have h1 : reSub (tryClassA "class=\"val ".toList
        ('"' :: ' ' :: (dtLit t ++ ' ' :: dfLit "net_income")) (if v < 0 then 'r' else 'g'))
        ((⟨P ++ (valClassElem t x ++ B), ch, sk⟩ : EngineState).html)
      = P ++ (valClassElem t (if v < 0 then 'r' else 'g') ++ B) := by
    show reSub _ (P ++ (valClassElem t x ++ B)) = _
    apply reSub_single _ P (valClassElem t x) B
      (valClassElem t (if v < 0 then 'r' else 'g'))
      ("class=\"val ".toList.length + 1
        + ('"' :: ' ' :: (dtLit t ++ ' ' :: dfLit "net_income")).length)
    · exact tryClassA_valClassElem t x (if v < 0 then 'r' else 'g') B hx
    · exact valClassElem_length t x
    · omega
    · exact fun i hi => noClassABelowB_spec _ H1 i hi
    · exact fun i hi => noClassAB_spec _ H2 i hi
  rw [h1]
  rw [reSub_id (noClassBB_spec _ H3)]
  exact reSub_id (noClassAB_spec _ H4)

theorem c5_amended_sign_class_toggle_witness :
    (doClass "X" (recNI (-150))
        ⟨"<span ".toList ++ (valClassElem "X" 'g' ++ ">z</span>".toList), 0, 0⟩).html
      = "<span ".toList ++ (valClassElem "X" (if (-150 : ℚ) < 0 then 'r' else 'g')
          ++ ">z</span>".toList) :=
  c5_amended_sign_class_toggle.1 "X" (-150) 'g' (recNI (-150)) 0 0
    "<span ".toList ">z</span>".toList (by decide) (by decide) (by decide) (by decide)
    (by decide) (by decide)

/-- C6: non-target isolation.  First conjunct: a document in which none of
the engine's patterns matches anywhere — in particular one whose elements all
carry non-matching entity or field markers — is returned byte-identically,
with zero changes and only the absent raw values skipped.  Second conjunct:
when one marked element does match, the whole engine rewrites exactly the
text run between the marked tag's `>` and the next `<`; the prefix `P`, the
entire open tag (spacing, attributes and quoting included) and the suffix `B`
are preserved byte-for-byte. -/
theorem c6_frame_isolation :
    (∀ (s : List Char) (data : DataMap) (now dateLabel : List Char),
        noEngineB data s = true →
        update_html s data now dateLabel = ⟨s, 0, skippedTotal data⟩)
    ∧ ∀ (t : String) (v : ℚ) (P B sp attrs content now dateLabel : List Char),
        (∀ c ∈ sp, isPySpace c = true) → sp ≠ [] →
        (∀ c ∈ attrs, (c != '>') = true) →
        (∀ c ∈ content, (c != '<') = true) →
        noTagBelowB (dtLit t) (dfLit "price")
          (P ++ (fwElem t "price" sp attrs content ++ B)) P.length = true →
        noTagB (dtLit t) (dfLit "price") B = true →
        noTagB (dfLit "price") (dtLit t)
          (P ++ (fwG1 t "price" sp attrs ++ (format_value v "price" t ++ ('<' :: B))))
          = true →
        noTag1B "data-field=\"last-updated\"".toList
          (P ++ (fwG1 t "price" sp attrs ++ (format_value v "price" t ++ ('<' :: B))))
          = true →
        noTag1B "data-field=\"price_date\"".toList
          (P ++ (fwG1 t "price" sp attrs ++ (format_value v "price" t ++ ('<' :: B))))
          = true →
        (update_html (P ++ (fwElem t "price" sp attrs content ++ B))
            [(t, ⟨some v, none, none, none, none, none, none, none⟩)] now dateLabel).html
          = P ++ (fwG1 t "price" sp attrs ++ (format_value v "price" t ++ ('<' :: B))) := by
  refine ⟨fun s data now dl h => update_html_nomatch s data now dl h, ?_⟩
  intro t v P B sp attrs content now dateLabel hsp hspn hattrs hcontent HF1 HF2 HREV HTS HPD
  set r : Record := ⟨some v, none, none, none, none, none, none, none⟩ with hrdef
  set doc : List Char := P ++ (fwElem t "price" sp attrs content ++ B) with hdoc
  set docOut : List Char :=
    P ++ (fwG1 t "price" sp attrs ++ (format_value v "price" t ++ ('<' :: B))) with hdocOut
  have h1 : (doField t r ⟨doc, 0, 0⟩ "price").html = docOut := by
    rw [doField_html_some t "price" r _ v rfl]
    have hfw : reSub (tryTagged (dtLit t) (dfLit "price") (format_value v "price" t))
        ((⟨doc, 0, 0⟩ : EngineState).html)
        = P ++ ((fwG1 t "price" sp attrs ++ format_value v "price" t ++ ['<']) ++ B) := by
      show reSub _ doc = _
      rw [hdoc]
      apply reSub_single _ P (fwElem t "price" sp attrs content) B
        (fwG1 t "price" sp attrs ++ format_value v "price" t ++ ['<'])
        ((fwG1 t "price" sp attrs).length + content.length + 1)
      · exact tryTagged_fwElem t "price" (format_value v "price" t) sp attrs content B
          hsp hspn hattrs hcontent
      · exact fwElem_length t "price" sp attrs content
      · omega
      · exact fun i hi => tryTagged_none _ (noTagBelowB_spec (by rw [← hdoc]; exact HF1) i hi)
      · exact fun i hi => tryTagged_none _ (noTagBelowB_spec HF2 i hi)
    rw [hfw]
    have harr : P ++ ((fwG1 t "price" sp attrs ++ format_value v "price" t ++ ['<']) ++ B)
        = docOut := by
      rw [hdocOut]
      simp
    rw [harr]
    exact reSub_id (fun i hi => tryTagged_none _ (noTagBelowB_spec HREV i hi))
  have hn : ∀ (st : EngineState) (f : String), r.get f = none →
      (doField t r st f).html = st.html := fun st f hv => by rw [doField_none t f r st hv]
  show reSub (tryTagged1 "data-field=\"price_date\"".toList dateLabel)
      (reSub (tryTagged1 "data-field=\"last-updated\"".toList
        ("Prices last updated: ".toList ++ now))
        ((List.foldl (processTicker [(t, r)]) ⟨doc, 0, 0⟩ [(t, r)]).html)) = docOut
  have hhtml : (List.foldl (processTicker [(t, r)]) ⟨doc, 0, 0⟩ [(t, r)]).html = docOut := by
    simp only [List.foldl, processTicker, simpleFieldsList]
    rw [doClass_none t r _ rfl, doRange_none_high [(t, r)] t r _ rfl]
    rw [hn _ "pe_forward" rfl, hn _ "target_price" rfl, hn _ "net_income" rfl,
      hn _ "revenue" rfl, hn _ "mktcap" rfl]
    exact h1
  rw [hhtml]
  rw [reSub_id (fun i hi => tryTagged1_none _ (noTag1BelowB_spec HTS i hi))]
  exact reSub_id (fun i hi => tryTagged1_none _ (noTag1BelowB_spec HPD i hi))

theorem c6_frame_isolation_witness :
    (update_html ("<a ".toList ++ (fwElem "MP" "price" [' '] [] "x".toList ++ "/a>".toList))
        [("MP", ⟨some (51/10), none, none, none, none, none, none, none⟩)]
        nowFix dateFix).html
      = "<a ".toList ++ (fwG1 "MP" "price" [' '] []
          ++ (format_value (51/10) "price" "MP" ++ ('<' :: "/a>".toList))) :=
  c6_frame_isolation.2 "MP" (51/10) "<a ".toList "/a>".toList [' '] [] "x".toList
    nowFix dateFix (by decide) (by decide) (by decide) (by decide) (by decide) (by decide)
    (by decide) (by decide) (by decide)

